import Mathlib

/-!
ScatterNd kernels and SYCL work partitioning.

A shallow embedding of

* `tensorflow/core/kernels/scatter_nd_op_cpu_impl.h`
  (`UpdateExecutor`, `ScatterNdFunctor<CPUDevice>`, `LeftUpdateSYCL`,
  `ScatterNdKernel`, `ScatterNdFunctor<SYCLDevice>`), and
* `tensorflow/core/common_runtime/sycl/sycl_util.h` (`SYCLmemcpy`,
  `get_max_work_item_tuple`, `get_sycl_nd_range`).

Conventions of the embedding.

* A rank-2 tensor (`TTypes<T, 2>::Tensor`) is the list of its rows, each row a
  list of elements; `Tensor2.data` is its row-major flat buffer, which is what
  the SYCL kernel addresses through raw pointers.
* The element type `T` is `Int`: element arithmetic is exact.
* The template parameter `Index` is a parameter of the embedding
  (`IndexType`): strides and offsets held in an `Index` or `int64` variable are
  converted to that type where the source stores them, with two's-complement
  wrap-around. The functors are instantiated with `int32` and `int64`;
  `IndexType.unbounded` is the idealisation without wrap-around. Positions in
  the batch (`loc`, `index`, `IXDIM * index + dim`, `index * slice_size + si`)
  are kept exact.
* An access outside a tensor or buffer is undefined behaviour in the source;
  in the embedding a write there leaves the tensor or buffer unchanged and a
  read gives the default (`0`, or the empty row).
* `size_t` values are natural numbers reduced modulo `2 ^ 64`; a division by
  zero has no result (`none`).
* A `parallel_for` launch runs its work-items one after the other in the order
  given by a schedule (a list of item ids).
* A call of `SYCLmemcpy` is the list of the device copies it issues, or the
  type tag on which it reaches `LOG(FATAL)`.
-/

namespace tensorflow

/-! ## Data model -/

/-- The combine operator `scatter_nd_op::UpdateOp`. -/
inductive UpdateOp where
  | ASSIGN
  | ADD
  | SUB
  deriving DecidableEq, Repr

/-- A rank-2 tensor, as the list of its rows. -/
abbrev Tensor2 := List (List Int)

/-- The number of rows, `t.dimension(0)`. -/
def Tensor2.dimension0 (t : Tensor2) : Nat := t.length

/-- The row `t.chip<0>(i)`. -/
def Tensor2.chip0 (t : Tensor2) (i : Nat) : List Int := t.getD i []

/-- The element `t(r, c)`. -/
def Tensor2.at (t : Tensor2) (r c : Nat) : Int := (t.chip0 r).getD c 0

/-- The row-major flat buffer `t.data()`. -/
def Tensor2.data (t : Tensor2) : List Int := t.flatten

/-- The number of elements, `t.size()`. -/
def Tensor2.size (t : Tensor2) : Nat := t.data.length

/-- Modelled from the spec: `FastBoundsCheck` of `bounds_check.h`, which is not
among the sources; the per-dimension index is valid when it lies in
`[0, limit)`. -/
def FastBoundsCheck (index limit : Int) : Bool :=
  decide (0 ≤ index ∧ index < limit)

/-! ## `update_executor::UpdateExecutor` -/

/-- The three specialisations of `UpdateExecutor<..., OP>::Execute`, on a whole
chip: `output = update`, `output += update`, `output -= update`
(element-wise). The result is the new contents of the output chip. -/
def UpdateExecutor.Execute (OP : UpdateOp) (update output : List Int) : List Int :=
  match OP with
  | UpdateOp.ASSIGN => update
  | UpdateOp.ADD => List.zipWith (fun o u => o + u) output update
  | UpdateOp.SUB => List.zipWith (fun o u => o - u) output update

/-! ## The integer type `Index` -/

/-- The conversion of an integer to the two's-complement signed type of `bits`
bits. -/
def wrap_signed (bits : Nat) (x : Int) : Int :=
  (x + 2 ^ (bits - 1)) % 2 ^ bits - 2 ^ (bits - 1)

/-- The template parameter `Index`. The functors are instantiated with `int32`
and `int64` (`REGISTER_SCATTER_ND_INDEX`); `unbounded` is the idealisation in
which no conversion wraps, the reading of "exact" or "unbounded" integer
arithmetic. -/
inductive IndexType where
  | int32
  | int64
  | unbounded
  deriving DecidableEq, Repr

/-- The conversion of a value to the type `Index`. -/
def IndexType.narrow (Index : IndexType) (x : Int) : Int :=
  match Index with
  | IndexType.int32 => wrap_signed 32 x
  | IndexType.int64 => wrap_signed 64 x
  | IndexType.unbounded => x

/-- The conversion of a value to the 64-bit types `int64` and
`Eigen::DenseIndex`. -/
def IndexType.narrow64 (Index : IndexType) (x : Int) : Int :=
  match Index with
  | IndexType.int32 => wrap_signed 64 x
  | IndexType.int64 => wrap_signed 64 x
  | IndexType.unbounded => x

/-- The value `x` is representable in the type `Index`. -/
def IndexType.fits (Index : IndexType) (x : Int) : Prop := Index.narrow x = x

instance (Index : IndexType) (x : Int) : Decidable (Index.fits x) := by
  unfold IndexType.fits; infer_instance

/-- The store `t.chip<0>(i) = v` for an offset `i` held in an `Index`; a
negative offset, like one past the last row, leaves the tensor unchanged. -/
def Tensor2.store_chip0 (t : Tensor2) (i : Int) (v : List Int) : Tensor2 :=
  if 0 ≤ i then t.set i.toNat v else t

/-! ## `ScatterNdFunctor<CPUDevice, T, Index, OP, IXDIM>` -/

/-- The stride loop `for (int dim = IXDIM - 1; dim >= 0; --dim)` of the CPU
functor, on the array `Index batch_strides[IXDIM]`: the first argument counts
the iterations left, so the iteration run at `n + 1` is the one with `dim = n`.
The product `batch_strides[dim + 1] * output_shape_prefix[dim + 1]` is taken in
the 64-bit type of the shape and converted to `Index` by the store. -/
def batch_strides_loop (Index : IndexType) (IXDIM : Nat)
    ( output_shape_prefix : List Int) : Nat → List Int → List Int
  | 0, batch_strides => batch_strides
  | dim + 1, batch_strides =>
    batch_strides_loop Index IXDIM output_shape_prefix dim
      (if dim = IXDIM - 1 then batch_strides.set dim 1
       else batch_strides.set dim
         (Index.narrow (Index.narrow64
           (batch_strides.getD (dim + 1) 0 * output_shape_prefix.getD (dim + 1) 0))))

/-- The array `Index batch_strides[IXDIM]` of the CPU functor after the stride
loop; `IXDIM` is the length of the shape prefix. -/
def batch_strides (Index : IndexType) ( output_shape_prefix : List Int) : List Int :=
  batch_strides_loop Index output_shape_prefix.length output_shape_prefix
    output_shape_prefix.length (List.replicate output_shape_prefix.length 0)

/-- The body of the loop `for (int dim = 0; dim < IXDIM; ++dim)` of the CPU
functor on one row of `Tindices`; the state is `(i, out_of_bounds)`. The
product `ix_d * batch_strides[dim]` and the sum `i += ...` are `Index`
values. -/
def cpu_dim_step (Index : IndexType) ( output_shape_prefix : List Int)
    (strides : List Int) (row : List Int) (st : Int × Bool) (dim : Nat) : Int × Bool :=
  let ix_d := row.getD dim 0
  (Index.narrow (st.1 + Index.narrow (ix_d * strides.getD dim 0)),
   st.2 || !FastBoundsCheck ix_d ( output_shape_prefix.getD dim 0))

/-- The inner loop `for (int dim = 0; dim < IXDIM; ++dim)` of the CPU functor on
one row of `Tindices`: it returns the final `(i, out_of_bounds)`. -/
def cpu_dim_loop (Index : IndexType) ( output_shape_prefix : List Int)
    (strides : List Int) (row : List Int) : Int × Bool :=
  (List.range output_shape_prefix.length).foldl
    (cpu_dim_step Index output_shape_prefix strides row) (0, false)

/-- The loop `for (loc = 0; loc < batch_size; ++loc)` of the CPU functor, with
its `break`: the first argument is the number of iterations left, `loc` the
current row. It returns `(error_loc, Toutput)`. -/
def cpu_loc_loop (Index : IndexType) (OP : UpdateOp) ( output_shape_prefix : List Int)
    (strides : List Int) (Tindices Tupdates : Tensor2) :
    Nat → Nat → Tensor2 → Int × Tensor2
  | 0, _, Toutput => (-1, Toutput)
  | n + 1, loc, Toutput =>
    let r := cpu_dim_loop Index output_shape_prefix strides (Tindices.chip0 loc)
    if r.2 then ((loc : Int), Toutput)
    else
      let input_chip := Toutput.chip0 r.1.toNat
      let update_chip := Tupdates.chip0 loc
      cpu_loc_loop Index OP output_shape_prefix strides Tindices Tupdates n (loc + 1)
        (Toutput.store_chip0 r.1 (UpdateExecutor.Execute OP update_chip input_chip))

/-- The functor `ScatterNdFunctor<CPUDevice, T, Index, OP, IXDIM>::operator()`.
It returns `error_loc` and the final contents of `Toutput`. (`d` and `Tparams`
are not used by the body and are left out; `slice_size` is not used either.) -/
def ScatterNdFunctorCPU (Index : IndexType) (OP : UpdateOp) (_slice_size : Int)
    ( output_shape_prefix : List Int) (Tindices Tupdates Toutput : Tensor2) :
    Int × Tensor2 :=
  let batch_size := Tindices.dimension0
  cpu_loc_loop Index OP output_shape_prefix (batch_strides Index output_shape_prefix)
    Tindices Tupdates batch_size 0 Toutput

/-- The three tensors a call of the scatter functor reaches. -/
structure ScatterNdBuffers where
  Tindices : Tensor2
  Tupdates : Tensor2
  Toutput : Tensor2
  deriving DecidableEq, Repr

/-- The loop `for (loc = 0; loc < batch_size; ++loc)` of the CPU functor in
state-passing form: every iteration reads its index row and its update row from
the buffers and stores the combined chip into the buffers. -/
def cpu_loc_loop_run (Index : IndexType) (OP : UpdateOp)
    ( output_shape_prefix : List Int) (strides : List Int) :
    Nat → Nat → ScatterNdBuffers → Int × ScatterNdBuffers
  | 0, _, b => (-1, b)
  | n + 1, loc, b =>
    let r := cpu_dim_loop Index output_shape_prefix strides (b.Tindices.chip0 loc)
    if r.2 then ((loc : Int), b)
    else
      let input_chip := b.Toutput.chip0 r.1.toNat
      let update_chip := b.Tupdates.chip0 loc
      cpu_loc_loop_run Index OP output_shape_prefix strides n (loc + 1)
        { b with Toutput :=
            b.Toutput.store_chip0 r.1 (UpdateExecutor.Execute OP update_chip input_chip) }

/-- The call of the sequential functor as a step on the three buffers it
reaches. -/
def ScatterNdFunctorCPU.run (Index : IndexType) (OP : UpdateOp) (_slice_size : Int)
    ( output_shape_prefix : List Int) (b : ScatterNdBuffers) : Int × ScatterNdBuffers :=
  let batch_size := b.Tindices.dimension0
  cpu_loc_loop_run Index OP output_shape_prefix (batch_strides Index output_shape_prefix)
    batch_size 0 b

/-! ## `ScatterNdKernel` and `ScatterNdFunctor<SYCLDevice, ...>` -/

/-- The three specialisations of `LeftUpdateSYCL<PTR, T, Op>::operator()`:
`*out = val`, `*out += val`, `*out -= val`, for the pointer `out + p` into the
buffer; a pointer before the buffer, like one past its end, leaves the buffer
unchanged. -/
def LeftUpdateSYCL (op : UpdateOp) (buf : List Int) (p : Int) (val : Int) : List Int :=
  if 0 ≤ p then
    match op with
    | UpdateOp.ASSIGN => buf.set p.toNat val
    | UpdateOp.ADD => buf.set p.toNat (buf.getD p.toNat 0 + val)
    | UpdateOp.SUB => buf.set p.toNat (buf.getD p.toNat 0 - val)
  else buf

/-- The stride loop of the SYCL functor, on the array
`Eigen::array<int64, IXDIM> batch_strides`: the same loop as in the CPU functor,
with the product stored as a 64-bit value. -/
def batch_strides_sycl_loop (Index : IndexType) (IXDIM : Nat)
    ( output_shape_prefix : List Int) : Nat → List Int → List Int
  | 0, batch_strides => batch_strides
  | dim + 1, batch_strides =>
    batch_strides_sycl_loop Index IXDIM output_shape_prefix dim
      (if dim = IXDIM - 1 then batch_strides.set dim 1
       else batch_strides.set dim
         (Index.narrow64
           (batch_strides.getD (dim + 1) 0 * output_shape_prefix.getD (dim + 1) 0)))

/-- The array `Eigen::array<int64, IXDIM> batch_strides` of the SYCL functor
after the stride loop. -/
def batch_strides_sycl (Index : IndexType) ( output_shape_prefix : List Int) :
    List Int :=
  batch_strides_sycl_loop Index output_shape_prefix.length output_shape_prefix
    output_shape_prefix.length (List.replicate output_shape_prefix.length 0)

/-- The body of the loop `for (int dim = 0; dim < IXDIM; ++dim)` of the kernel
for batch row `index`, on the flat index buffer; the state is
`(i, out_of_bounds)`. The product `ix_d * batch_strides_[dim] * slice_size_` is
a 64-bit value; the sum `i += ...` is converted to `Index`. -/
def kernel_dim_step (Index : IndexType) (indices : List Int)
    ( output_shape_prefix : List Int) (strides : List Int) (slice_size : Int)
    (index : Nat) (st : Int × Bool) (dim : Nat) : Int × Bool :=
  let offset := output_shape_prefix.length * index + dim
  let ix_d := indices.getD offset 0
  (Index.narrow (st.1 + Index.narrow64 (ix_d * strides.getD dim 0 * slice_size)),
   st.2 || !FastBoundsCheck ix_d ( output_shape_prefix.getD dim 0))

/-- The inner loop `for (int dim = 0; dim < IXDIM; ++dim)` of the kernel for
batch row `index`: the final `(i, out_of_bounds)`. -/
def kernel_dim_loop (Index : IndexType) (indices : List Int)
    ( output_shape_prefix : List Int) (strides : List Int) (slice_size : Int)
    (index : Nat) : Int × Bool :=
  (List.range output_shape_prefix.length).foldl
    (kernel_dim_step Index indices output_shape_prefix strides slice_size index)
    (0, false)

/-- The body of the loop `for (int si = 0; si < slice_size_; si++)` of the
kernel: `update(out + i + si, updates[index * slice_size_ + si])`. -/
def kernel_slice_step (op : UpdateOp) (updates : List Int) (slice_size : Int)
    (index : Nat) (i : Int) (out : List Int) (si : Nat) : List Int :=
  LeftUpdateSYCL op out (i + si) (updates.getD (index * slice_size + si).toNat 0)

/-- The loop `for (int si = 0; si < slice_size_; si++)` of the kernel. -/
def kernel_slice_loop (op : UpdateOp) (updates : List Int) (slice_size : Int)
    (index : Nat) (i : Int) (out : List Int) : List Int :=
  (List.range slice_size.toNat).foldl (kernel_slice_step op updates slice_size index i) out

/-- The body of the loop `for (Index index = 0; index < num_indices_; index++)`
of the kernel. -/
def kernel_index_step (Index : IndexType) (op : UpdateOp) (indices updates : List Int)
    ( output_shape_prefix : List Int) (strides : List Int) (slice_size : Int)
    (out : List Int) (index : Nat) : List Int :=
  let r := kernel_dim_loop Index indices output_shape_prefix strides slice_size index
  if !r.2 then kernel_slice_loop op updates slice_size index r.1 out
  else out

/-- One execution of `ScatterNdKernel::operator()(cl::sycl::item<1> id)` on the
output buffer `out`. The item id is a parameter of the operator; the body never
reads it. -/
def ScatterNdKernel (Index : IndexType) (op : UpdateOp) (indices updates : List Int)
    ( output_shape_prefix : List Int) (strides : List Int) (num_indices : Nat)
    (slice_size : Int) (_id : Nat) (out : List Int) : List Int :=
  (List.range num_indices).foldl
    (kernel_index_step Index op indices updates output_shape_prefix strides slice_size)
    out

/-- The launch `cgh.parallel_for(range<1>(num_threads), kernel)`: every
work-item runs the kernel; `schedule` lists the item ids in the order in which
they run. -/
def parallel_for (schedule : List Nat) (kernel : Nat → List Int → List Int)
    (buf : List Int) : List Int :=
  schedule.foldl (fun b id => kernel id b) buf

/-- A schedule of a launch of `num_threads` work-items: every id below
`num_threads` runs once, in some order. -/
def IsSchedule (num_threads : Nat) (schedule : List Nat) : Prop :=
  schedule.Perm (List.range num_threads)

instance (num_threads : Nat) (schedule : List Nat) :
    Decidable (IsSchedule num_threads schedule) := by
  unfold IsSchedule; infer_instance

/-- The functor `ScatterNdFunctor<SYCLDevice, T, Index, OP, IXDIM>::operator()`
for a launch run in the order `schedule`. It returns the functor's result and
the final contents of the output buffer (`Toutput.data()`). -/
def ScatterNdFunctorSYCL (Index : IndexType) (OP : UpdateOp) (slice_size : Int)
    ( output_shape_prefix : List Int) (Tindices Tupdates Toutput : Tensor2)
    (schedule : List Nat) : Int × List Int :=
  let batch_size := Tindices.dimension0
  let strides := batch_strides_sycl Index output_shape_prefix
  let kernel := ScatterNdKernel Index OP Tindices.data Tupdates.data output_shape_prefix
    strides batch_size slice_size
  (-1, parallel_for schedule kernel Toutput.data)

/-- The number of work-items of the launch, `num_threads = Toutput.size()`. -/
def ScatterNdFunctorSYCL.num_threads (Toutput : Tensor2) : Nat := Toutput.size

/-! ## `get_sycl_nd_range` -/

/-- The modulus of `size_t` arithmetic. -/
def SIZE_T_MOD : Nat := 2 ^ 64

/-- A one-dimensional `cl::sycl::nd_range<1>`: global and local range. -/
structure nd_range1 where
  global_range : Nat
  local_range : Nat
  deriving DecidableEq, Repr

/-- A two-dimensional `cl::sycl::nd_range<2>`: global and local range. -/
structure nd_range2 where
  global_range : Nat × Nat
  local_range : Nat × Nat
  deriving DecidableEq, Repr

/-- The part of `Eigen::SyclDevice` that the helpers read: the
`max_work_item_sizes` reported by the device of the queue (three `size_t`). -/
structure SyclDevice where
  max_work_item_sizes : Nat × Nat × Nat
  deriving DecidableEq, Repr

/-- The helper `get_max_work_item_tuple(d)`. -/
def get_max_work_item_tuple (d : SyclDevice) : Nat × Nat × Nat :=
  d.max_work_item_sizes

/-- The overload `get_sycl_nd_range(d, items)`, in `size_t` arithmetic; `none`
is the division by a zero `group_size`. -/
def get_sycl_nd_range (d : SyclDevice) (items : Nat) : Option nd_range1 :=
  let nb_items := items % SIZE_T_MOD
  let group_size := min nb_items (get_max_work_item_tuple d).1
  if group_size = 0 then none
  else
    let group_count := ((nb_items + group_size - 1) % SIZE_T_MOD) / group_size
    some ⟨(group_count * group_size) % SIZE_T_MOD, group_size⟩

/-- The overload `get_sycl_nd_range(d, item_dim0, item_dim1)`, in `size_t`
arithmetic; `none` is the division by a zero `group_size`. -/
def get_sycl_nd_range2 (d : SyclDevice) (item_dim0 item_dim1 : Nat) :
    Option nd_range2 :=
  let nb_items := item_dim0 % SIZE_T_MOD
  let group_size := min nb_items (get_max_work_item_tuple d).1
  if group_size = 0 then none
  else
    let group_count := ((nb_items + group_size - 1) % SIZE_T_MOD) / group_size
    some ⟨((group_count * group_size) % SIZE_T_MOD, item_dim1 % SIZE_T_MOD),
      (group_size, 1)⟩

/-! ## `SYCLmemcpy` -/

/-- Modelled from the spec: the element type tag of a tensor, `DataType` of
`types.proto`, which is not among the sources. The eighteen case labels of
`SYCLmemcpy` are enumerators of it; the others are the remaining non-reference
enumerators of the framework. -/
inductive DataType where
  | DT_INVALID
  | DT_FLOAT
  | DT_DOUBLE
  | DT_INT32
  | DT_UINT8
  | DT_INT16
  | DT_INT8
  | DT_STRING
  | DT_COMPLEX64
  | DT_INT64
  | DT_BOOL
  | DT_QINT8
  | DT_QUINT8
  | DT_QINT32
  | DT_BFLOAT16
  | DT_QINT16
  | DT_QUINT16
  | DT_UINT16
  | DT_COMPLEX128
  | DT_HALF
  | DT_RESOURCE
  | DT_VARIANT
  | DT_UINT32
  | DT_UINT64
  deriving DecidableEq, Repr

/-- Modelled from the spec: the element byte size of a type tag, `DataTypeSize`
of `types.cc`, which is not among the sources; `0` for the types whose
elements are not plain fixed-size values. -/
def DataTypeSize (dt : DataType) : Nat :=
  match dt with
  | DataType.DT_COMPLEX128 => 16
  | DataType.DT_DOUBLE => 8
  | DataType.DT_COMPLEX64 => 8
  | DataType.DT_INT64 => 8
  | DataType.DT_UINT64 => 8
  | DataType.DT_FLOAT => 4
  | DataType.DT_INT32 => 4
  | DataType.DT_QINT32 => 4
  | DataType.DT_UINT32 => 4
  | DataType.DT_INT16 => 2
  | DataType.DT_UINT16 => 2
  | DataType.DT_BFLOAT16 => 2
  | DataType.DT_QINT16 => 2
  | DataType.DT_QUINT16 => 2
  | DataType.DT_HALF => 2
  | DataType.DT_BOOL => 1
  | DataType.DT_UINT8 => 1
  | DataType.DT_INT8 => 1
  | DataType.DT_QINT8 => 1
  | DataType.DT_QUINT8 => 1
  | DataType.DT_INVALID => 0
  | DataType.DT_STRING => 0
  | DataType.DT_RESOURCE => 0
  | DataType.DT_VARIANT => 0

/-- The word types that `COPY_WITH_TYPE` is instantiated with. -/
inductive CopyWord where
  | cl_ulong2
  | cl_ulong
  | cl_uint
  | cl_ushort
  | cpp_bool
  | cl_uchar
  deriving DecidableEq, Repr

/-- The byte size of a copy word type (`sizeof`). -/
def CopyWord.sizeof (w : CopyWord) : Nat :=
  match w with
  | CopyWord.cl_ulong2 => 16
  | CopyWord.cl_ulong => 8
  | CopyWord.cl_uint => 4
  | CopyWord.cl_ushort => 2
  | CopyWord.cpp_bool => 1
  | CopyWord.cl_uchar => 1

/-- The part of a `Tensor` that `SYCLmemcpy` reads: its type tag, the address of
its buffer (`DMAHelper::base`) and its `TotalBytes()`. -/
structure Tensor where
  dtype : DataType
  base : Nat
  TotalBytes : Nat
  deriving DecidableEq, Repr

/-- The helper `GetBase`. -/
def GetBase (t : Tensor) : Nat := t.base

/-- One call `device.memcpy(dst_ptr, static_cast<T const*>(src_ptr), size)`. -/
structure MemcpyCall where
  dst_ptr : Nat
  src_ptr : Nat
  word : CopyWord
  size : Nat
  deriving DecidableEq, Repr

/-- What a call of `SYCLmemcpy` does: it issues the listed device copies and
returns, or it reaches `LOG(FATAL)` on the type tag it reports. -/
inductive SYCLmemcpyResult where
  | copied (calls : List MemcpyCall)
  | fatal (dtype : DataType)
  deriving DecidableEq, Repr

/-- The function `SYCLmemcpy(device, src_tensor, dst_tensor)`. -/
def SYCLmemcpy (src_tensor dst_tensor : Tensor) : SYCLmemcpyResult :=
  let size := src_tensor.TotalBytes
  let dst_ptr := GetBase dst_tensor
  let src_ptr := GetBase src_tensor
  match src_tensor.dtype with
  | DataType.DT_COMPLEX128 =>
    SYCLmemcpyResult.copied [⟨dst_ptr, src_ptr, CopyWord.cl_ulong2, size⟩]
  | DataType.DT_DOUBLE | DataType.DT_COMPLEX64 | DataType.DT_INT64 =>
    SYCLmemcpyResult.copied [⟨dst_ptr, src_ptr, CopyWord.cl_ulong, size⟩]
  | DataType.DT_FLOAT | DataType.DT_INT32 | DataType.DT_QINT32 =>
    SYCLmemcpyResult.copied [⟨dst_ptr, src_ptr, CopyWord.cl_uint, size⟩]
  | DataType.DT_INT16 | DataType.DT_UINT16 | DataType.DT_BFLOAT16 | DataType.DT_QINT16
  | DataType.DT_QUINT16 | DataType.DT_HALF =>
    SYCLmemcpyResult.copied [⟨dst_ptr, src_ptr, CopyWord.cl_ushort, size⟩]
  | DataType.DT_BOOL =>
    SYCLmemcpyResult.copied [⟨dst_ptr, src_ptr, CopyWord.cpp_bool, size⟩]
  | DataType.DT_UINT8 | DataType.DT_INT8 | DataType.DT_QINT8 | DataType.DT_QUINT8 =>
    SYCLmemcpyResult.copied [⟨dst_ptr, src_ptr, CopyWord.cl_uchar, size⟩]
  | _ => SYCLmemcpyResult.fatal src_tensor.dtype

/-- The case labels of the switch of `SYCLmemcpy`, in the order of the source. -/
def SYCLmemcpy_case_labels : List DataType :=
  [DataType.DT_COMPLEX128, DataType.DT_DOUBLE, DataType.DT_COMPLEX64, DataType.DT_INT64,
   DataType.DT_FLOAT, DataType.DT_INT32, DataType.DT_QINT32, DataType.DT_INT16,
   DataType.DT_UINT16, DataType.DT_BFLOAT16, DataType.DT_QINT16, DataType.DT_QUINT16,
   DataType.DT_HALF, DataType.DT_BOOL, DataType.DT_UINT8, DataType.DT_INT8,
   DataType.DT_QINT8, DataType.DT_QUINT8]

/-! ## Specification-side definitions -/

/-- A row of indices passes the bounds check: every coordinate `ix_d` satisfies
`0 <= ix_d < output_shape_prefix[dim]`. -/
def RowInBounds ( output_shape_prefix : List Int) (row : List Int) : Prop :=
  ∀ dim, dim < output_shape_prefix.length →
    0 ≤ row.getD dim 0 ∧ row.getD dim 0 < output_shape_prefix.getD dim 0

instance ( output_shape_prefix : List Int) (row : List Int) :
    Decidable (RowInBounds output_shape_prefix row) := by
  unfold RowInBounds; infer_instance

/-- The row-major stride of dimension `dim`: the product of the bounds of the
dimensions after it. -/
def row_major_stride ( output_shape_prefix : List Int) (dim : Nat) : Int :=
  ( output_shape_prefix.drop (dim + 1)).prod

/-- The flat outer offset of a coordinate: the sum over the dimensions of
`ix_d * stride[dim]`, for row-major strides. -/
def flat_offset ( output_shape_prefix : List Int) (row : List Int) : Int :=
  ((List.range output_shape_prefix.length).map
    (fun dim => row.getD dim 0 * row_major_stride output_shape_prefix dim)).sum

/-- The combine of batch row `loc` applied to its destination slice: the row
of the output at the flat offset of the coordinate, as an `Index` value. -/
def apply_row (Index : IndexType) (OP : UpdateOp) ( output_shape_prefix : List Int)
    (Tindices Tupdates : Tensor2) (out : Tensor2) (loc : Nat) : Tensor2 :=
  let o := Index.narrow (flat_offset output_shape_prefix (Tindices.chip0 loc))
  out.store_chip0 o (UpdateExecutor.Execute OP (Tupdates.chip0 loc) (out.chip0 o.toNat))

/-- The combines of the batch rows `0 .. p - 1`, applied in index order. -/
def apply_rows (Index : IndexType) (OP : UpdateOp) ( output_shape_prefix : List Int)
    (Tindices Tupdates : Tensor2) (p : Nat) (out : Tensor2) : Tensor2 :=
  (List.range p).foldl (apply_row Index OP output_shape_prefix Tindices Tupdates) out

/-- Row `p` is the first row of the batch with a coordinate out of bounds. -/
def FirstOutOfBounds ( output_shape_prefix : List Int) (Tindices : Tensor2)
    (p : Nat) : Prop :=
  p < Tindices.dimension0 ∧ ¬ RowInBounds output_shape_prefix (Tindices.chip0 p) ∧
    ∀ q, q < p → RowInBounds output_shape_prefix (Tindices.chip0 q)

/-- Every row of the batch passes the bounds check. -/
def AllInBounds ( output_shape_prefix : List Int) (Tindices : Tensor2) : Prop :=
  ∀ loc, loc < Tindices.dimension0 → RowInBounds output_shape_prefix (Tindices.chip0 loc)

/-- The element-wise combine of an output element `o` with an update element
`u`: overwrite, add or subtract. -/
def combine (OP : UpdateOp) (o u : Int) : Int :=
  match OP with
  | UpdateOp.ASSIGN => u
  | UpdateOp.ADD => o + u
  | UpdateOp.SUB => o - u

/-- The rows of the batch whose coordinate flattens to the outer offset `o`, in
increasing position. -/
def rows_at ( output_shape_prefix : List Int) (Tindices : Tensor2) (o : Nat) :
    List Nat :=
  (List.range Tindices.dimension0).filter
    (fun loc => decide (flat_offset output_shape_prefix (Tindices.chip0 loc) = (o : Int)))

/-- Every row of the tensor has `n` elements. -/
def RowsHaveLength (t : Tensor2) (n : Nat) : Prop :=
  ∀ r, r < t.dimension0 → (t.chip0 r).length = n

/-- The zero-initialised tensor with `rows` rows of `cols` elements. -/
def zeros (rows cols : Nat) : Tensor2 := List.replicate rows (List.replicate cols 0)

instance ( output_shape_prefix : List Int) (Tindices : Tensor2) :
    Decidable (AllInBounds output_shape_prefix Tindices) := by
  unfold AllInBounds; infer_instance

instance ( output_shape_prefix : List Int) (Tindices : Tensor2) (p : Nat) :
    Decidable (FirstOutOfBounds output_shape_prefix Tindices p) := by
  unfold FirstOutOfBounds; infer_instance

instance (t : Tensor2) (n : Nat) : Decidable (RowsHaveLength t n) := by
  unfold RowsHaveLength; infer_instance

/-- Row `index` of the flat index buffer passes the bounds check of the kernel:
every coordinate lies in `[0, output_shape_prefix[dim])`. -/
def KernelRowInBounds (indices : List Int) ( output_shape_prefix : List Int)
    (index : Nat) : Prop :=
  ∀ dim, dim < output_shape_prefix.length →
    0 ≤ indices.getD ( output_shape_prefix.length * index + dim) 0 ∧
    indices.getD ( output_shape_prefix.length * index + dim) 0
      < output_shape_prefix.getD dim 0

instance (indices : List Int) ( output_shape_prefix : List Int) (index : Nat) :
    Decidable (KernelRowInBounds indices output_shape_prefix index) := by
  unfold KernelRowInBounds; infer_instance

/-- The flat element offset of row `index` in the output buffer: the sum over
the dimensions of `ix_d * stride[dim] * slice_size`, as an `Index` value. -/
def kernel_row_offset (Index : IndexType) (indices : List Int)
    ( output_shape_prefix : List Int) (strides : List Int) (slice_size : Int)
    (index : Nat) : Int :=
  Index.narrow (((List.range output_shape_prefix.length).map
    (fun dim => indices.getD ( output_shape_prefix.length * index + dim) 0
      * strides.getD dim 0 * slice_size)).sum)

/-- The combine of the update row `index` with the slice of `slice_size`
elements of the buffer that starts at element `i`: the element at position `j`
with `i <= j < i + slice_size` becomes its combine with
`updates[index * slice_size + (j - i)]`, every other element is kept. -/
def combine_slice (op : UpdateOp) (updates : List Int) (slice_size : Int)
    (index : Nat) (i : Int) (out : List Int) : List Int :=
  (List.range out.length).map (fun (j : Nat) =>
    if i ≤ (j : Int) ∧ (j : Int) < i + slice_size then
      combine op (out.getD j 0)
        (updates.getD (index * slice_size + ((j : Int) - i)).toNat 0)
    else out.getD j 0)

/-- The combine of batch row `index` applied to its destination slice of the
flat output buffer. -/
def kernel_combine_row (Index : IndexType) (op : UpdateOp) (indices updates : List Int)
    ( output_shape_prefix : List Int) (strides : List Int) (slice_size : Int)
    (out : List Int) (index : Nat) : List Int :=
  combine_slice op updates slice_size index
    (kernel_row_offset Index indices output_shape_prefix strides slice_size index) out

/-- The rows of the batch that pass the bounds check of the kernel, in
increasing position. -/
def kernel_rows_in_bounds (indices : List Int) ( output_shape_prefix : List Int)
    (num_indices : Nat) : List Nat :=
  (List.range num_indices).filter
    (fun index => decide (KernelRowInBounds indices output_shape_prefix index))

/-- Ceiling division of `n` by `d`. -/
def ceil_div (n d : Nat) : Nat := n / d + (if n % d = 0 then 0 else 1)

/-- The coordinate `row[0 .. n - 1]` read in mixed radix, with the bounds
`output_shape_prefix[0 .. n - 1]` as radices (most significant digit first). -/
def mixed_radix ( output_shape_prefix : List Int) (row : List Int) : Nat → Int
  | 0 => 0
  | n + 1 =>
    mixed_radix output_shape_prefix row n * output_shape_prefix.getD n 0 + row.getD n 0

/-- Row `index` of the flat index buffer, as the list of its `IXDIM`
coordinates. -/
def kernel_row (indices : List Int) (IXDIM : Nat) (index : Nat) : List Int :=
  (List.range IXDIM).map (fun dim => indices.getD (IXDIM * index + dim) 0)

/-! ## Lists -/

theorem getD_set_eq {α : Type} (l : List α) (i j : Nat) (a d : α) :
    (l.set i a).getD j d = if i = j ∧ i < l.length then a else l.getD j d := by
  simp only [List.getD_eq_getElem?_getD, List.getElem?_set]
  by_cases h : i = j
  · subst h
    by_cases h2 : i < l.length
    · simp [h2]
    · simp [h2]
      rw [List.getElem?_eq_none (by omega)]
      rfl
  · simp [h]

theorem foldl_range_succ {β : Type} (f : β → Nat → β) (b : β) (n : Nat) :
    (List.range (n + 1)).foldl f b = f ((List.range n).foldl f b) n := by
  rw [List.range_succ, List.foldl_append]
  rfl

/-! ## Conversions to `Index` and to `int64` -/

theorem wrap_signed_modEq (bits : Nat) (x : Int) :
    wrap_signed bits x ≡ x [ZMOD 2 ^ bits] := by
  unfold wrap_signed
  have h : (x + 2 ^ (bits - 1)) % 2 ^ bits ≡ x + 2 ^ (bits - 1) [ZMOD 2 ^ bits] :=
    Int.mod_modEq _ _
  have h2 := h.sub_right (2 ^ (bits - 1))
  simpa using h2

theorem wrap_signed_congr (bits : Nat) (x y : Int) (h : x ≡ y [ZMOD 2 ^ bits]) :
    wrap_signed bits x = wrap_signed bits y := by
  unfold wrap_signed
  have h2 : (x + 2 ^ (bits - 1)) % 2 ^ bits = (y + 2 ^ (bits - 1)) % 2 ^ bits :=
    h.add_right _
  rw [h2]

theorem wrap_signed_eq_iff (bits : Nat) (x y : Int) :
    wrap_signed bits x = wrap_signed bits y ↔ x ≡ y [ZMOD 2 ^ bits] := by
  constructor
  · intro h
    exact ((wrap_signed_modEq bits x).symm.trans (h ▸ Int.ModEq.refl _)).trans
      (wrap_signed_modEq bits y)
  · exact wrap_signed_congr bits x y

theorem wrap_signed_32_64 (x : Int) : wrap_signed 32 (wrap_signed 64 x) = wrap_signed 32 x := by
  apply wrap_signed_congr
  have h := wrap_signed_modEq 64 x
  exact Int.ModEq.of_mul_left (2 ^ 32) (by simpa using h)

theorem narrow_add_congr (Index : IndexType) (a a' b b' : Int)
    (ha : Index.narrow a = Index.narrow a') (hb : Index.narrow b = Index.narrow b') :
    Index.narrow (a + b) = Index.narrow (a' + b') := by
  cases Index
  · simp only [IndexType.narrow, wrap_signed_eq_iff] at *
    exact ha.add hb
  · simp only [IndexType.narrow, wrap_signed_eq_iff] at *
    exact ha.add hb
  · simp only [IndexType.narrow] at *
    rw [ha, hb]

theorem narrow_mul_congr (Index : IndexType) (a a' b b' : Int)
    (ha : Index.narrow a = Index.narrow a') (hb : Index.narrow b = Index.narrow b') :
    Index.narrow (a * b) = Index.narrow (a' * b') := by
  cases Index
  · simp only [IndexType.narrow, wrap_signed_eq_iff] at *
    exact ha.mul hb
  · simp only [IndexType.narrow, wrap_signed_eq_iff] at *
    exact ha.mul hb
  · simp only [IndexType.narrow] at *
    rw [ha, hb]

theorem narrow_idem (Index : IndexType) (a : Int) :
    Index.narrow (Index.narrow a) = Index.narrow a := by
  cases Index
  · exact wrap_signed_congr _ _ _ (wrap_signed_modEq _ _)
  · exact wrap_signed_congr _ _ _ (wrap_signed_modEq _ _)
  · rfl

theorem narrow_narrow64 (Index : IndexType) (a : Int) :
    Index.narrow (Index.narrow64 a) = Index.narrow a := by
  cases Index
  · exact wrap_signed_32_64 a
  · exact wrap_signed_congr _ _ _ (wrap_signed_modEq _ _)
  · rfl

theorem narrow64_idem (Index : IndexType) (a : Int) :
    Index.narrow64 (Index.narrow64 a) = Index.narrow64 a := by
  cases Index
  · exact wrap_signed_congr _ _ _ (wrap_signed_modEq _ _)
  · exact wrap_signed_congr _ _ _ (wrap_signed_modEq _ _)
  · rfl

theorem narrow64_mul_congr (Index : IndexType) (a a' b b' : Int)
    (ha : Index.narrow64 a = Index.narrow64 a') (hb : Index.narrow64 b = Index.narrow64 b') :
    Index.narrow64 (a * b) = Index.narrow64 (a' * b') := by
  cases Index
  · simp only [IndexType.narrow64, wrap_signed_eq_iff] at *
    exact ha.mul hb
  · simp only [IndexType.narrow64, wrap_signed_eq_iff] at *
    exact ha.mul hb
  · simp only [IndexType.narrow64] at *
    rw [ha, hb]

theorem narrow_zero (Index : IndexType) : Index.narrow 0 = 0 := by
  cases Index <;> decide

theorem narrow_one (Index : IndexType) : Index.narrow 1 = 1 := by
  cases Index <;> decide

theorem narrow64_one (Index : IndexType) : Index.narrow64 1 = 1 := by
  cases Index <;> decide

theorem fits_range_32 (x : Int) :
    wrap_signed 32 x = x ↔ -2147483648 ≤ x ∧ x < 2147483648 := by
  unfold wrap_signed
  norm_num
  omega

theorem fits_range_64 (x : Int) :
    wrap_signed 64 x = x ↔ -9223372036854775808 ≤ x ∧ x < 9223372036854775808 := by
  unfold wrap_signed
  norm_num
  omega

/-- A value between zero and a representable value is representable. -/
theorem fits_between (Index : IndexType) (x y : Int) (hx : Index.fits x)
    (h : (0 ≤ y ∧ y ≤ x) ∨ (x ≤ y ∧ y ≤ 0)) : Index.fits y := by
  unfold IndexType.fits at *
  cases Index
  · simp only [IndexType.narrow, fits_range_32] at *
    omega
  · simp only [IndexType.narrow, fits_range_64] at *
    omega
  · rfl

theorem narrow64_of_fits (Index : IndexType) (x : Int) (hx : Index.fits x) :
    Index.narrow64 x = x := by
  unfold IndexType.fits at hx
  cases Index
  · simp only [IndexType.narrow, fits_range_32] at hx
    simp only [IndexType.narrow64, fits_range_64]
    omega
  · exact hx
  · rfl

/-! ## The stride loops -/

theorem row_major_stride_last ( output_shape_prefix : List Int) (e : Nat)
    (h : e + 1 = output_shape_prefix.length) :
    row_major_stride output_shape_prefix e = 1 := by
  unfold row_major_stride
  rw [List.drop_eq_nil_of_le (by omega)]
  rfl

theorem row_major_stride_succ ( output_shape_prefix : List Int) (e : Nat)
    (h : e + 1 < output_shape_prefix.length) :
    row_major_stride output_shape_prefix e
      = row_major_stride output_shape_prefix (e + 1) * output_shape_prefix.getD (e + 1) 0 := by
  unfold row_major_stride
  rw [List.drop_eq_getElem_cons h, List.prod_cons, List.getD_eq_getElem _ _ h]
  ring

theorem batch_strides_loop_length (Index : IndexType) (IXDIM : Nat)
    ( output_shape_prefix : List Int) (n : Nat) (bs : List Int) :
    (batch_strides_loop Index IXDIM output_shape_prefix n bs).length = bs.length := by
  induction n generalizing bs with
  | zero => rfl
  | succ n ih =>
    simp only [batch_strides_loop]
    rw [ih]
    split <;> simp

theorem batch_strides_loop_getD (Index : IndexType) ( output_shape_prefix : List Int)
    (n : Nat) (bs : List Int) (hn : n ≤ output_shape_prefix.length)
    (hlen : bs.length = output_shape_prefix.length)
    (hinv : ∀ d, n ≤ d → d < output_shape_prefix.length →
      bs.getD d 0 = Index.narrow (row_major_stride output_shape_prefix d)) :
    ∀ d, d < output_shape_prefix.length →
      (batch_strides_loop Index output_shape_prefix.length output_shape_prefix n bs).getD d 0
        = Index.narrow (row_major_stride output_shape_prefix d) := by
  induction n generalizing bs with
  | zero =>
    intro d hd
    exact hinv d (Nat.zero_le d) hd
  | succ n ih =>
    intro d hd
    simp only [batch_strides_loop]
    apply ih _ (by omega) _ _ d hd
    · split <;> simp [hlen]
    · intro e hne he
      by_cases hen : e = n
      · subst hen
        by_cases hlast : e = output_shape_prefix.length - 1
        · rw [if_pos hlast, getD_set_eq, if_pos ⟨rfl, by omega⟩,
            row_major_stride_last output_shape_prefix e (by omega), narrow_one]
        · rw [if_neg hlast, getD_set_eq, if_pos ⟨rfl, by omega⟩,
            hinv (e + 1) (by omega) (by omega), narrow_narrow64,
            row_major_stride_succ output_shape_prefix e (by omega)]
          exact narrow_mul_congr Index _ _ _ _ (narrow_idem Index _) rfl
      · have hne2 : n + 1 ≤ e := by omega
        have hset : ∀ v : Int, (bs.set n v).getD e 0 = bs.getD e 0 := by
          intro v
          rw [getD_set_eq, if_neg (by omega)]
        split
        · rw [hset]; exact hinv e hne2 he
        · rw [hset]; exact hinv e hne2 he

/-- The strides of the CPU functor are the row-major strides, converted to
`Index`. -/
theorem batch_strides_getD (Index : IndexType) ( output_shape_prefix : List Int)
    (d : Nat) (hd : d < output_shape_prefix.length) :
    (batch_strides Index output_shape_prefix).getD d 0
      = Index.narrow (row_major_stride output_shape_prefix d) := by
  unfold batch_strides
  apply batch_strides_loop_getD _ _ _ _ (Nat.le_refl _) (by simp) _ d hd
  intro e h1 h2
  omega

theorem batch_strides_sycl_loop_length (Index : IndexType) (IXDIM : Nat)
    ( output_shape_prefix : List Int) (n : Nat) (bs : List Int) :
    (batch_strides_sycl_loop Index IXDIM output_shape_prefix n bs).length = bs.length := by
  induction n generalizing bs with
  | zero => rfl
  | succ n ih =>
    simp only [batch_strides_sycl_loop]
    rw [ih]
    split <;> simp

theorem batch_strides_sycl_loop_getD (Index : IndexType)
    ( output_shape_prefix : List Int) (n : Nat) (bs : List Int)
    (hn : n ≤ output_shape_prefix.length)
    (hlen : bs.length = output_shape_prefix.length)
    (hinv : ∀ d, n ≤ d → d < output_shape_prefix.length →
      bs.getD d 0 = Index.narrow64 (row_major_stride output_shape_prefix d)) :
    ∀ d, d < output_shape_prefix.length →
      (batch_strides_sycl_loop Index output_shape_prefix.length output_shape_prefix n
          bs).getD d 0
        = Index.narrow64 (row_major_stride output_shape_prefix d) := by
  induction n generalizing bs with
  | zero =>
    intro d hd
    exact hinv d (Nat.zero_le d) hd
  | succ n ih =>
    intro d hd
    simp only [batch_strides_sycl_loop]
    apply ih _ (by omega) _ _ d hd
    · split <;> simp [hlen]
    · intro e hne he
      by_cases hen : e = n
      · subst hen
        by_cases hlast : e = output_shape_prefix.length - 1
        · rw [if_pos hlast, getD_set_eq, if_pos ⟨rfl, by omega⟩,
            row_major_stride_last output_shape_prefix e (by omega), narrow64_one]
        · rw [if_neg hlast, getD_set_eq, if_pos ⟨rfl, by omega⟩,
            hinv (e + 1) (by omega) (by omega),
            row_major_stride_succ output_shape_prefix e (by omega)]
          exact narrow64_mul_congr Index _ _ _ _ (narrow64_idem Index _) rfl
      · have hne2 : n + 1 ≤ e := by omega
        have hset : ∀ v : Int, (bs.set n v).getD e 0 = bs.getD e 0 := by
          intro v
          rw [getD_set_eq, if_neg (by omega)]
        split
        · rw [hset]; exact hinv e hne2 he
        · rw [hset]; exact hinv e hne2 he

/-- The strides of the SYCL functor are the row-major strides, converted to
`int64`. -/
theorem batch_strides_sycl_getD (Index : IndexType) ( output_shape_prefix : List Int)
    (d : Nat) (hd : d < output_shape_prefix.length) :
    (batch_strides_sycl Index output_shape_prefix).getD d 0
      = Index.narrow64 (row_major_stride output_shape_prefix d) := by
  unfold batch_strides_sycl
  apply batch_strides_sycl_loop_getD _ _ _ _ (Nat.le_refl _) (by simp) _ d hd
  intro e h1 h2
  omega

/-! ## The per-row loop of the CPU functor -/

theorem narrow_sum_congr (Index : IndexType) (f g : Nat → Int) (l : List Nat)
    (h : ∀ d, d ∈ l → Index.narrow (f d) = Index.narrow (g d)) :
    Index.narrow ((l.map f).sum) = Index.narrow ((l.map g).sum) := by
  induction l with
  | nil => rfl
  | cons x l ih =>
    rw [List.map_cons, List.sum_cons, List.map_cons, List.sum_cons]
    exact narrow_add_congr Index _ _ _ _ (h x (List.mem_cons_self x l))
      (ih (fun d hd => h d (List.mem_cons_of_mem x hd)))

theorem cpu_dim_fold_fst (Index : IndexType) ( output_shape_prefix : List Int)
    (strides row : List Int) (n : Nat) :
    ((List.range n).foldl (cpu_dim_step Index output_shape_prefix strides row)
        (0, false)).1
      = Index.narrow
          (((List.range n).map (fun dim => row.getD dim 0 * strides.getD dim 0)).sum) := by
  induction n with
  | zero => exact (narrow_zero Index).symm
  | succ n ih =>
    rw [foldl_range_succ, List.range_succ, List.map_append, List.sum_append]
    simp only [cpu_dim_step, ih, List.map_cons, List.map_nil, List.sum_cons, List.sum_nil,
      add_zero]
    exact narrow_add_congr Index _ _ _ _ (narrow_idem Index _) (narrow_idem Index _)

theorem cpu_dim_fold_snd (Index : IndexType) ( output_shape_prefix : List Int)
    (strides row : List Int) (n : Nat) :
    ((List.range n).foldl (cpu_dim_step Index output_shape_prefix strides row)
        (0, false)).2 = false ↔
    ∀ dim, dim < n →
      0 ≤ row.getD dim 0 ∧ row.getD dim 0 < output_shape_prefix.getD dim 0 := by
  induction n with
  | zero => simp
  | succ n ih =>
    rw [foldl_range_succ]
    simp only [cpu_dim_step, Bool.or_eq_false_iff, ih, FastBoundsCheck]
    constructor
    · rintro ⟨h1, h2⟩ dim hdim
      rcases Nat.lt_succ_iff_lt_or_eq.mp hdim with h | h
      · exact h1 dim h
      · subst h
        simpa using h2
    · intro h
      refine ⟨fun dim hdim => h dim (by omega), ?_⟩
      simpa using h n (by omega)

theorem cpu_dim_loop_snd (Index : IndexType) ( output_shape_prefix : List Int)
    (strides row : List Int) :
    (cpu_dim_loop Index output_shape_prefix strides row).2 = false ↔
      RowInBounds output_shape_prefix row :=
  cpu_dim_fold_snd Index output_shape_prefix strides row output_shape_prefix.length

theorem cpu_dim_loop_snd_true (Index : IndexType) ( output_shape_prefix : List Int)
    (strides row : List Int) (h : ¬ RowInBounds output_shape_prefix row) :
    (cpu_dim_loop Index output_shape_prefix strides row).2 = true := by
  cases hb : (cpu_dim_loop Index output_shape_prefix strides row).2
  · exact absurd ((cpu_dim_loop_snd _ _ _ _).mp hb) h
  · rfl

/-- The offset computed by the CPU functor is the flat offset of the coordinate,
converted to `Index`. -/
theorem cpu_dim_loop_fst (Index : IndexType) ( output_shape_prefix : List Int)
    (row : List Int) :
    (cpu_dim_loop Index output_shape_prefix (batch_strides Index output_shape_prefix)
        row).1
      = Index.narrow (flat_offset output_shape_prefix row) := by
  unfold cpu_dim_loop flat_offset
  rw [cpu_dim_fold_fst]
  apply narrow_sum_congr
  intro dim hdim
  rw [batch_strides_getD _ _ _ (List.mem_range.mp hdim)]
  exact narrow_mul_congr Index _ _ _ _ rfl (narrow_idem Index _)

/-! ## The batch loop of the CPU functor -/

theorem cpu_loc_loop_all (Index : IndexType) (OP : UpdateOp)
    ( output_shape_prefix : List Int)
    (Tindices Tupdates : Tensor2) (n loc : Nat) (out : Tensor2)
    (h : ∀ q, loc ≤ q → q < loc + n →
      RowInBounds output_shape_prefix (Tindices.chip0 q)) :
    cpu_loc_loop Index OP output_shape_prefix (batch_strides Index output_shape_prefix)
        Tindices Tupdates n loc out
      = (-1, (List.range' loc n).foldl
          (apply_row Index OP output_shape_prefix Tindices Tupdates) out) := by
  induction n generalizing loc out with
  | zero => rfl
  | succ n ih =>
    have hrow := h loc (Nat.le_refl _) (by omega)
    have h2 := (cpu_dim_loop_snd Index output_shape_prefix
      (batch_strides Index output_shape_prefix) (Tindices.chip0 loc)).mpr hrow
    simp only [cpu_loc_loop, h2, cpu_dim_loop_fst, List.range'_succ, List.foldl_cons]
    rw [ih (loc + 1) _ (fun q hq1 hq2 => h q (by omega) (by omega))]
    rfl

theorem cpu_loc_loop_first (Index : IndexType) (OP : UpdateOp)
    ( output_shape_prefix : List Int)
    (Tindices Tupdates : Tensor2) (n loc p : Nat) (out : Tensor2)
    (hp1 : loc ≤ p) (hp2 : p < loc + n)
    (hoob : ¬ RowInBounds output_shape_prefix (Tindices.chip0 p))
    (hin : ∀ q, loc ≤ q → q < p →
      RowInBounds output_shape_prefix (Tindices.chip0 q)) :
    cpu_loc_loop Index OP output_shape_prefix (batch_strides Index output_shape_prefix)
        Tindices Tupdates n loc out
      = ((p : Int), (List.range' loc (p - loc)).foldl
          (apply_row Index OP output_shape_prefix Tindices Tupdates) out) := by
  induction n generalizing loc out with
  | zero => omega
  | succ n ih =>
    by_cases hlp : loc = p
    · subst hlp
      have h2 := cpu_dim_loop_snd_true Index output_shape_prefix
        (batch_strides Index output_shape_prefix) (Tindices.chip0 loc) hoob
      simp [cpu_loc_loop, h2]
    · have hrow := hin loc (Nat.le_refl _) (by omega)
      have h2 := (cpu_dim_loop_snd Index output_shape_prefix
        (batch_strides Index output_shape_prefix) (Tindices.chip0 loc)).mpr hrow
      have hsub : p - loc = (p - (loc + 1)) + 1 := by omega
      simp only [cpu_loc_loop, h2, cpu_dim_loop_fst]
      rw [ih (loc + 1) _ (by omega) (by omega) (fun q hq1 hq2 => hin q (by omega) hq2),
        hsub, List.range'_succ, List.foldl_cons]
      rfl

theorem ScatterNdFunctorCPU_all (Index : IndexType) (OP : UpdateOp) (slice_size : Int)
    ( output_shape_prefix : List Int) (Tindices Tupdates Toutput : Tensor2)
    (h : AllInBounds output_shape_prefix Tindices) :
    ScatterNdFunctorCPU Index OP slice_size output_shape_prefix Tindices Tupdates Toutput
      = (-1, apply_rows Index OP output_shape_prefix Tindices Tupdates
          Tindices.dimension0 Toutput) := by
  unfold ScatterNdFunctorCPU apply_rows
  rw [cpu_loc_loop_all Index OP output_shape_prefix Tindices Tupdates _ 0 Toutput
    (fun q _ hq => h q (by omega)), List.range_eq_range']

theorem ScatterNdFunctorCPU_first (Index : IndexType) (OP : UpdateOp) (slice_size : Int)
    ( output_shape_prefix : List Int) (Tindices Tupdates Toutput : Tensor2) (p : Nat)
    (h : FirstOutOfBounds output_shape_prefix Tindices p) :
    ScatterNdFunctorCPU Index OP slice_size output_shape_prefix Tindices Tupdates Toutput
      = ((p : Int), apply_rows Index OP output_shape_prefix Tindices Tupdates p
          Toutput) := by
  unfold ScatterNdFunctorCPU apply_rows
  obtain ⟨h1, h2, h3⟩ := h
  rw [cpu_loc_loop_first Index OP output_shape_prefix Tindices Tupdates _ 0 p Toutput
    (Nat.zero_le _) (by omega) h2 (fun q _ hq => h3 q hq), List.range_eq_range']
  rfl

theorem exists_first_out_of_bounds ( output_shape_prefix : List Int)
    (Tindices : Tensor2) (loc : Nat) (hloc : loc < Tindices.dimension0)
    (hoob : ¬ RowInBounds output_shape_prefix (Tindices.chip0 loc)) :
    ∃ p, p ≤ loc ∧ FirstOutOfBounds output_shape_prefix Tindices p := by
  classical
  have hex : ∃ q, ¬ RowInBounds output_shape_prefix (Tindices.chip0 q) := ⟨loc, hoob⟩
  refine ⟨Nat.find hex, Nat.find_min' hex hoob, ?_, Nat.find_spec hex, ?_⟩
  · exact Nat.lt_of_le_of_lt (Nat.find_min' hex hoob) hloc
  · intro q hq
    exact not_not.mp (Nat.find_min hex hq)

/-! ## The flat offset of an in-bounds row -/

theorem flat_offset_partial ( output_shape_prefix : List Int) (row : List Int)
    (h : RowInBounds output_shape_prefix row) (n : Nat)
    (hn : n ≤ output_shape_prefix.length) :
    ∃ H : Int,
      ((List.range n).map
        (fun dim => row.getD dim 0 * row_major_stride output_shape_prefix dim)).sum
        = H * ( output_shape_prefix.drop n).prod ∧
      0 ≤ H ∧ H < ( output_shape_prefix.take n).prod := by
  induction n with
  | zero => exact ⟨0, by simp, le_refl _, by simp⟩
  | succ n ih =>
    obtain ⟨H, hsum, h0, hlt⟩ := ih (by omega)
    have hn1 : n < output_shape_prefix.length := by omega
    obtain ⟨hx0, hxlt⟩ := h n hn1
    rw [List.getD_eq_getElem _ _ hn1] at hxlt
    refine ⟨H * output_shape_prefix[n] + row.getD n 0, ?_, ?_, ?_⟩
    · rw [List.range_succ, List.map_append, List.sum_append, hsum,
        List.drop_eq_getElem_cons hn1, List.prod_cons]
      simp only [List.map_cons, List.map_nil, List.sum_cons, List.sum_nil,
        row_major_stride]
      ring
    · have := mul_nonneg h0 (le_trans hx0 (le_of_lt hxlt))
      omega
    · rw [List.prod_take_succ _ _ hn1]
      have h1 : 0 ≤ (( output_shape_prefix.take n).prod - 1 - H)
          * output_shape_prefix[n] :=
        mul_nonneg (by omega) (le_trans hx0 (le_of_lt hxlt))
      nlinarith

theorem flat_offset_bounds ( output_shape_prefix : List Int) (row : List Int)
    (h : RowInBounds output_shape_prefix row) :
    0 ≤ flat_offset output_shape_prefix row ∧
      flat_offset output_shape_prefix row < output_shape_prefix.prod := by
  obtain ⟨H, hsum, h0, hlt⟩ := flat_offset_partial output_shape_prefix row h
    output_shape_prefix.length (Nat.le_refl _)
  unfold flat_offset
  rw [hsum]
  simp only [List.drop_length, List.prod_nil, mul_one, List.take_length] at hlt ⊢
  exact ⟨h0, hlt⟩

/-! ## Offsets as mixed-radix numbers -/

theorem flat_offset_partial_eq ( output_shape_prefix : List Int) (row : List Int)
    (n : Nat) (hn : n ≤ output_shape_prefix.length) :
    ((List.range n).map
        (fun dim => row.getD dim 0 * row_major_stride output_shape_prefix dim)).sum
      = mixed_radix output_shape_prefix row n * ( output_shape_prefix.drop n).prod := by
  induction n with
  | zero => simp [mixed_radix]
  | succ n ih =>
    have hn1 : n < output_shape_prefix.length := by omega
    rw [List.range_succ, List.map_append, List.sum_append, ih (by omega),
      List.drop_eq_getElem_cons hn1, List.prod_cons]
    simp only [List.map_cons, List.map_nil, List.sum_cons, List.sum_nil,
      row_major_stride, mixed_radix, List.getD_eq_getElem _ _ hn1]
    ring

theorem flat_offset_eq_mixed_radix ( output_shape_prefix : List Int) (row : List Int) :
    flat_offset output_shape_prefix row
      = mixed_radix output_shape_prefix row output_shape_prefix.length := by
  unfold flat_offset
  rw [flat_offset_partial_eq _ _ _ (Nat.le_refl _)]
  simp

theorem mixed_radix_inj ( output_shape_prefix : List Int) (r1 r2 : List Int)
    (h1 : RowInBounds output_shape_prefix r1) (h2 : RowInBounds output_shape_prefix r2)
    (n : Nat) (hn : n ≤ output_shape_prefix.length)
    (heq : mixed_radix output_shape_prefix r1 n = mixed_radix output_shape_prefix r2 n) :
    ∀ dim, dim < n → r1.getD dim 0 = r2.getD dim 0 := by
  induction n with
  | zero => intro dim hdim; omega
  | succ n ih =>
    have hn1 : n < output_shape_prefix.length := by omega
    obtain ⟨ha0, halt⟩ := h1 n hn1
    obtain ⟨hb0, hblt⟩ := h2 n hn1
    simp only [mixed_radix] at heq
    have hH : mixed_radix output_shape_prefix r1 n
        = mixed_radix output_shape_prefix r2 n := by
      rcases lt_trichotomy (mixed_radix output_shape_prefix r1 n)
        (mixed_radix output_shape_prefix r2 n) with hlt | heq2 | hgt
      · exfalso
        have hs : 0 ≤ (mixed_radix output_shape_prefix r2 n
            - mixed_radix output_shape_prefix r1 n - 1) * output_shape_prefix.getD n 0 :=
          mul_nonneg (by omega) (by omega)
        nlinarith
      · exact heq2
      · exfalso
        have hs : 0 ≤ (mixed_radix output_shape_prefix r1 n
            - mixed_radix output_shape_prefix r2 n - 1) * output_shape_prefix.getD n 0 :=
          mul_nonneg (by omega) (by omega)
        nlinarith
    have hx : r1.getD n 0 = r2.getD n 0 := by
      rw [hH] at heq
      exact add_left_cancel heq
    intro dim hdim
    rcases Nat.lt_succ_iff_lt_or_eq.mp hdim with h | h
    · exact ih (by omega) hH dim h
    · rw [h]; exact hx

theorem flat_offset_congr ( output_shape_prefix : List Int) (r1 r2 : List Int)
    (h : ∀ dim, dim < output_shape_prefix.length → r1.getD dim 0 = r2.getD dim 0) :
    flat_offset output_shape_prefix r1 = flat_offset output_shape_prefix r2 := by
  unfold flat_offset
  congr 1
  apply List.map_congr_left
  intro dim hdim
  rw [h dim (List.mem_range.mp hdim)]

theorem flat_offset_inj ( output_shape_prefix : List Int) (r1 r2 : List Int)
    (h1 : RowInBounds output_shape_prefix r1) (h2 : RowInBounds output_shape_prefix r2) :
    flat_offset output_shape_prefix r1 = flat_offset output_shape_prefix r2 ↔
      ∀ dim, dim < output_shape_prefix.length → r1.getD dim 0 = r2.getD dim 0 := by
  constructor
  · intro heq
    rw [flat_offset_eq_mixed_radix, flat_offset_eq_mixed_radix] at heq
    exact mixed_radix_inj output_shape_prefix r1 r2 h1 h2 _ (Nat.le_refl _) heq
  · exact flat_offset_congr output_shape_prefix r1 r2

theorem kernel_row_getD (indices : List Int) (IXDIM index dim : Nat) (hdim : dim < IXDIM) :
    (kernel_row indices IXDIM index).getD dim 0 = indices.getD (IXDIM * index + dim) 0 := by
  unfold kernel_row
  rw [List.getD_eq_getElem _ _ (by simpa using hdim)]
  simp

theorem kernel_row_in_bounds (indices : List Int) ( output_shape_prefix : List Int)
    (index : Nat) :
    KernelRowInBounds indices output_shape_prefix index ↔
      RowInBounds output_shape_prefix
        (kernel_row indices output_shape_prefix.length index) := by
  unfold KernelRowInBounds RowInBounds
  constructor
  · intro h dim hdim
    rw [kernel_row_getD _ _ _ _ hdim]
    exact h dim hdim
  · intro h dim hdim
    have := h dim hdim
    rw [kernel_row_getD _ _ _ _ hdim] at this
    exact this

theorem prod_drop_eq (l : List Int) (m : Nat) :
    (l.drop m).prod = ∏ k ∈ Finset.Ico m l.length, l.getD k 0 := by
  by_cases hm : m < l.length
  · have key : ∀ j, ∀ m, m + j = l.length →
        (l.drop m).prod = ∏ k ∈ Finset.Ico m l.length, l.getD k 0 := by
      intro j
      induction j with
      | zero =>
        intro m h
        rw [List.drop_eq_nil_of_le (by omega)]
        simp [← h]
      | succ j ih =>
        intro m h
        have hlt : m < l.length := by omega
        rw [List.drop_eq_getElem_cons hlt, List.prod_cons, ih (m + 1) (by omega),
          Finset.prod_eq_prod_Ico_succ_bot hlt, List.getD_eq_getElem _ _ hlt]
    exact key (l.length - m) m (by omega)
  · rw [List.drop_eq_nil_of_le (by omega), Finset.Ico_eq_empty (by omega)]
    simp

theorem slice_in_range (i P s : Int) (h0 : 0 ≤ i) (hlt : i < P) (hs : 0 ≤ s) :
    0 ≤ i * s ∧ (i + 1) * s ≤ P * s := by
  constructor
  · exact mul_nonneg h0 hs
  · exact mul_le_mul_of_nonneg_right (by omega) hs

/-! ## Offsets that are representable in `Index` -/

/-- When the number of outer rows is representable in `Index`, the conversion
leaves the flat offset of an in-bounds row unchanged. -/
theorem narrow_flat_offset (Index : IndexType) ( output_shape_prefix : List Int)
    (row : List Int) (hfit : Index.fits output_shape_prefix.prod)
    (hrow : RowInBounds output_shape_prefix row) :
    Index.narrow (flat_offset output_shape_prefix row)
      = flat_offset output_shape_prefix row := by
  obtain ⟨h0, hlt⟩ := flat_offset_bounds output_shape_prefix row hrow
  exact fits_between Index _ _ hfit (Or.inl ⟨h0, le_of_lt hlt⟩)

theorem kernel_dim_fold_fst (Index : IndexType) (indices : List Int)
    ( output_shape_prefix : List Int) (strides : List Int) (slice_size : Int)
    (index n : Nat) :
    ((List.range n).foldl
        (kernel_dim_step Index indices output_shape_prefix strides slice_size index)
        (0, false)).1
      = Index.narrow (((List.range n).map
          (fun dim => indices.getD ( output_shape_prefix.length * index + dim) 0
            * strides.getD dim 0 * slice_size)).sum) := by
  induction n with
  | zero => exact (narrow_zero Index).symm
  | succ n ih =>
    rw [foldl_range_succ, List.range_succ, List.map_append, List.sum_append]
    simp only [kernel_dim_step, ih, List.map_cons, List.map_nil, List.sum_cons,
      List.sum_nil, add_zero]
    exact narrow_add_congr Index _ _ _ _ (narrow_idem Index _) (narrow_narrow64 Index _)

theorem kernel_dim_fold_snd (Index : IndexType) (indices : List Int)
    ( output_shape_prefix : List Int) (strides : List Int) (slice_size : Int)
    (index n : Nat) :
    ((List.range n).foldl
        (kernel_dim_step Index indices output_shape_prefix strides slice_size index)
        (0, false)).2 = false ↔
    ∀ dim, dim < n →
      0 ≤ indices.getD ( output_shape_prefix.length * index + dim) 0 ∧
      indices.getD ( output_shape_prefix.length * index + dim) 0
        < output_shape_prefix.getD dim 0 := by
  induction n with
  | zero => simp
  | succ n ih =>
    rw [foldl_range_succ]
    simp only [kernel_dim_step, Bool.or_eq_false_iff, ih, FastBoundsCheck]
    constructor
    · rintro ⟨h1, h2⟩ dim hdim
      rcases Nat.lt_succ_iff_lt_or_eq.mp hdim with h | h
      · exact h1 dim h
      · subst h
        simpa using h2
    · intro h
      refine ⟨fun dim hdim => h dim (by omega), ?_⟩
      simpa using h n (by omega)

/-- The element offset computed by the kernel on the strides of the SYCL functor
is the flat offset of the coordinate times `slice_size`, converted to
`Index`. -/
theorem kernel_dim_loop_fst (Index : IndexType) (indices : List Int)
    ( output_shape_prefix : List Int) (slice_size : Int) (index : Nat) :
    (kernel_dim_loop Index indices output_shape_prefix
        (batch_strides_sycl Index output_shape_prefix) slice_size index).1
      = Index.narrow (flat_offset output_shape_prefix
          (kernel_row indices output_shape_prefix.length index) * slice_size) := by
  unfold kernel_dim_loop flat_offset
  rw [kernel_dim_fold_fst, ← List.sum_map_mul_right]
  apply narrow_sum_congr
  intro dim hdim
  have hd := List.mem_range.mp hdim
  rw [batch_strides_sycl_getD _ _ _ hd, kernel_row_getD _ _ _ _ hd]
  have h64 : Index.narrow (Index.narrow64 (row_major_stride output_shape_prefix dim))
      = Index.narrow (row_major_stride output_shape_prefix dim) := narrow_narrow64 Index _
  exact narrow_mul_congr Index _ _ _ _ (narrow_mul_congr Index _ _ _ _ rfl h64) rfl

/-! ## Applying rows, element by element -/

theorem chip0_set (t : Tensor2) (i j : Nat) (v : List Int) :
    Tensor2.chip0 (t.set i v) j = if i = j ∧ i < t.length then v else t.chip0 j := by
  unfold Tensor2.chip0
  exact getD_set_eq t i j v []

theorem store_chip0_length (t : Tensor2) (i : Int) (v : List Int) :
    (t.store_chip0 i v).length = t.length := by
  unfold Tensor2.store_chip0
  split <;> simp

theorem store_chip0_of_nonneg (t : Tensor2) (i : Int) (v : List Int) (h : 0 ≤ i) :
    t.store_chip0 i v = t.set i.toNat v := by
  unfold Tensor2.store_chip0
  rw [if_pos h]

theorem Execute_eq_zipWith (OP : UpdateOp) (update output : List Int)
    (h : update.length = output.length) :
    UpdateExecutor.Execute OP update output = List.zipWith (combine OP) output update := by
  cases OP
  · simp only [UpdateExecutor.Execute]
    apply List.ext_getElem
    · simp [h]
    · intro n h1 h2
      simp [combine]
  · rfl
  · rfl

theorem getD_zipWith_combine (OP : UpdateOp) (a b : List Int) (s : Nat)
    (ha : s < a.length) (hb : s < b.length) :
    (List.zipWith (combine OP) a b).getD s 0 = combine OP (a.getD s 0) (b.getD s 0) := by
  rw [List.getD_eq_getElem _ _ (by simp; omega), List.getD_eq_getElem _ _ ha,
    List.getD_eq_getElem _ _ hb, List.getElem_zipWith]

theorem apply_row_length (Index : IndexType) (OP : UpdateOp)
    ( output_shape_prefix : List Int)
    (Tindices Tupdates : Tensor2) (out : Tensor2) (loc : Nat) :
    (apply_row Index OP output_shape_prefix Tindices Tupdates out loc).length
      = out.length := by
  unfold apply_row
  exact store_chip0_length _ _ _

theorem apply_rows_succ (Index : IndexType) (OP : UpdateOp)
    ( output_shape_prefix : List Int)
    (Tindices Tupdates : Tensor2) (p : Nat) (out : Tensor2) :
    apply_rows Index OP output_shape_prefix Tindices Tupdates (p + 1) out
      = apply_row Index OP output_shape_prefix Tindices Tupdates
          (apply_rows Index OP output_shape_prefix Tindices Tupdates p out) p := by
  unfold apply_rows
  rw [foldl_range_succ]

theorem apply_rows_length (Index : IndexType) (OP : UpdateOp)
    ( output_shape_prefix : List Int)
    (Tindices Tupdates : Tensor2) (p : Nat) (out : Tensor2) :
    (apply_rows Index OP output_shape_prefix Tindices Tupdates p out).length
      = out.length := by
  induction p with
  | zero => rfl
  | succ p ih => rw [apply_rows_succ, apply_row_length, ih]

/-- For an in-bounds row, when the number of outer rows is representable in
`Index`, the row is applied at its flat offset. -/
theorem apply_row_eq (Index : IndexType) (OP : UpdateOp)
    ( output_shape_prefix : List Int) (Tindices Tupdates : Tensor2) (out : Tensor2)
    (loc : Nat) (hfit : Index.fits output_shape_prefix.prod)
    (hrow : RowInBounds output_shape_prefix (Tindices.chip0 loc)) :
    apply_row Index OP output_shape_prefix Tindices Tupdates out loc
      = out.set (flat_offset output_shape_prefix (Tindices.chip0 loc)).toNat
          (UpdateExecutor.Execute OP (Tupdates.chip0 loc)
            (out.chip0 (flat_offset output_shape_prefix (Tindices.chip0 loc)).toNat)) := by
  unfold apply_row
  simp only []
  rw [narrow_flat_offset Index _ _ hfit hrow,
    store_chip0_of_nonneg _ _ _ (flat_offset_bounds _ _ hrow).1]

theorem apply_row_rows (Index : IndexType) (OP : UpdateOp)
    ( output_shape_prefix : List Int)
    (Tindices Tupdates : Tensor2) (out : Tensor2) (loc ss : Nat)
    (hout : RowsHaveLength out ss) (hupd : (Tupdates.chip0 loc).length = ss) :
    RowsHaveLength (apply_row Index OP output_shape_prefix Tindices Tupdates out loc)
      ss := by
  intro r hr
  have hr2 : r < out.length := by
    simpa [Tensor2.dimension0, apply_row_length] using hr
  unfold apply_row Tensor2.store_chip0
  simp only []
  split
  · rw [chip0_set]
    split
    · rename_i hc
      obtain ⟨hc1, _⟩ := hc
      rw [hc1, Execute_eq_zipWith _ _ _ (by rw [hupd, hout r hr2])]
      simp [hupd, hout r hr2]
    · exact hout r hr2
  · exact hout r hr2

theorem apply_rows_rows (Index : IndexType) (OP : UpdateOp)
    ( output_shape_prefix : List Int)
    (Tindices Tupdates : Tensor2) (out : Tensor2) (ss p : Nat)
    (hout : RowsHaveLength out ss)
    (hupd : ∀ loc, loc < p → (Tupdates.chip0 loc).length = ss) :
    RowsHaveLength (apply_rows Index OP output_shape_prefix Tindices Tupdates p out)
      ss := by
  induction p with
  | zero => exact hout
  | succ p ih =>
    rw [apply_rows_succ]
    exact apply_row_rows Index OP output_shape_prefix Tindices Tupdates _ p ss
      (ih (fun loc hloc => hupd loc (by omega))) (hupd p (by omega))

/-- The element `(o, s)` after the rows `0 .. p - 1` have been applied, when the
number of outer rows is representable in `Index`: the initial element combined,
in increasing position, with the updates of the rows below `p` whose coordinate
flattens to `o`. -/
theorem apply_rows_at (Index : IndexType) (OP : UpdateOp)
    ( output_shape_prefix : List Int)
    (Tindices Tupdates : Tensor2) (out : Tensor2) (ss p o s : Nat)
    (hfit : Index.fits output_shape_prefix.prod)
    (hin : ∀ loc, loc < p → RowInBounds output_shape_prefix (Tindices.chip0 loc))
    (hout : RowsHaveLength out ss)
    (hupd : ∀ loc, loc < p → (Tupdates.chip0 loc).length = ss)
    (ho : o < out.dimension0) (hs : s < ss) :
    (apply_rows Index OP output_shape_prefix Tindices Tupdates p out).at o s
      = (((List.range p).filter (fun loc =>
            decide (flat_offset output_shape_prefix (Tindices.chip0 loc) = (o : Int)))).foldl
          (fun acc loc => combine OP acc (Tupdates.at loc s)) (out.at o s)) := by
  induction p with
  | zero => rfl
  | succ p ih =>
    have ih2 := ih (fun loc hloc => hin loc (by omega)) (fun loc hloc => hupd loc (by omega))
    have hrows := apply_rows_rows Index OP output_shape_prefix Tindices Tupdates out ss p
      hout (fun loc hloc => hupd loc (by omega))
    have hlen := apply_rows_length Index OP output_shape_prefix Tindices Tupdates p out
    have ho2 : o < out.length := ho
    have hoff := (flat_offset_bounds output_shape_prefix (Tindices.chip0 p)
      (hin p (by omega))).1
    rw [List.range_succ, List.filter_append, List.foldl_append, ← ih2, apply_rows_succ,
      apply_row_eq Index OP _ _ _ _ _ hfit (hin p (by omega))]
    unfold Tensor2.at
    rw [chip0_set]
    by_cases hc : flat_offset output_shape_prefix (Tindices.chip0 p) = (o : Int)
    · have hto : (flat_offset output_shape_prefix (Tindices.chip0 p)).toNat = o := by
        omega
      have hrow_o := hrows o (by rw [Tensor2.dimension0, hlen]; exact ho2)
      rw [if_pos ⟨hto, by rw [hlen, hto]; exact ho2⟩, hto,
        Execute_eq_zipWith _ _ _ (by rw [hupd p (by omega), hrow_o]),
        getD_zipWith_combine _ _ _ _ (by rw [hrow_o]; exact hs)
          (by rw [hupd p (by omega)]; exact hs)]
      simp [hc]
    · have hto : ¬ (flat_offset output_shape_prefix (Tindices.chip0 p)).toNat = o := by
        omega
      rw [if_neg (fun hh => hto hh.1)]
      simp [hc]

/-! ## Zero-initialised outputs -/

theorem prod_pos_of_one_le (l : List Int) (h : ∀ d ∈ l, 1 ≤ d) : 1 ≤ l.prod := by
  induction l with
  | nil => simp
  | cons a l ih =>
    rw [List.prod_cons]
    have ha : 1 ≤ a := h a (List.mem_cons_self a l)
    have hl : 1 ≤ l.prod := ih (fun d hd => h d (List.mem_cons_of_mem a hd))
    nlinarith

theorem getD_replicate_zero (n dim : Nat) : (List.replicate n (0 : Int)).getD dim 0 = 0 := by
  rw [List.getD_eq_getElem?_getD, List.getElem?_replicate]
  split <;> rfl

theorem flat_offset_zero_row ( output_shape_prefix : List Int) (n : Nat) :
    flat_offset output_shape_prefix (List.replicate n 0) = 0 := by
  unfold flat_offset
  apply List.sum_eq_zero
  intro x hx
  obtain ⟨dim, _, hdim⟩ := List.mem_map.mp hx
  rw [← hdim, getD_replicate_zero, zero_mul]

theorem chip0_zeros (rows cols i : Nat) (h : i < rows) :
    Tensor2.chip0 (zeros rows cols) i = List.replicate cols 0 := by
  unfold Tensor2.chip0 zeros
  rw [List.getD_eq_getElem _ _ (by simpa using h), List.getElem_replicate]

theorem zeros_length (rows cols : Nat) : (zeros rows cols).length = rows := by
  unfold zeros
  exact List.length_replicate _ _

theorem zipWith_add_zero (update : List Int) :
    List.zipWith (fun o u => o + u) (List.replicate update.length (0 : Int)) update
      = update := by
  apply List.ext_getElem
  · simp
  · intro n h1 h2
    simp

theorem zipWith_sub_zero (update : List Int) :
    List.zipWith (fun o u => o - u) (List.replicate update.length (0 : Int)) update
      = update.map (fun u => -u) := by
  apply List.ext_getElem
  · simp
  · intro n h1 h2
    simp

theorem all_in_bounds_single ( output_shape_prefix : List Int) (row : List Int)
    (h : RowInBounds output_shape_prefix row) :
    AllInBounds output_shape_prefix [row] := by
  intro loc hloc
  have h0 : loc = 0 := by
    simp only [Tensor2.dimension0, List.length_singleton] at hloc
    omega
  subst h0
  exact h

theorem apply_rows_one (Index : IndexType) (OP : UpdateOp)
    ( output_shape_prefix : List Int) (row update : List Int) (out : Tensor2) :
    apply_rows Index OP output_shape_prefix [row] [update] 1 out
      = out.store_chip0 (Index.narrow (flat_offset output_shape_prefix row))
          (UpdateExecutor.Execute OP update
            (out.chip0 (Index.narrow (flat_offset output_shape_prefix row)).toNat)) := by
  unfold apply_rows
  rw [foldl_range_succ]
  rfl

theorem apply_rows_eq_unbounded (Index : IndexType) (OP : UpdateOp)
    ( output_shape_prefix : List Int) (Tindices Tupdates : Tensor2) (out : Tensor2)
    (p : Nat) (hfit : Index.fits output_shape_prefix.prod)
    (hin : ∀ q, q < p → RowInBounds output_shape_prefix (Tindices.chip0 q)) :
    apply_rows Index OP output_shape_prefix Tindices Tupdates p out
      = apply_rows IndexType.unbounded OP output_shape_prefix Tindices Tupdates p
          out := by
  induction p with
  | zero => rfl
  | succ p ih =>
    rw [apply_rows_succ, apply_rows_succ, ih (fun q hq => hin q (by omega)),
      apply_row_eq Index OP _ _ _ _ _ hfit (hin p (by omega)),
      apply_row_eq IndexType.unbounded OP _ _ _ _ _ rfl (hin p (by omega))]

/-- When the number of outer rows is representable in `Index`, the sequential
functor instantiated with `Index` computes what it computes without
wrap-around. -/
theorem ScatterNdFunctorCPU_eq_unbounded (Index : IndexType) (OP : UpdateOp)
    (slice_size : Int) ( output_shape_prefix : List Int)
    (Tindices Tupdates Toutput : Tensor2) (hfit : Index.fits output_shape_prefix.prod) :
    ScatterNdFunctorCPU Index OP slice_size output_shape_prefix Tindices Tupdates Toutput
      = ScatterNdFunctorCPU IndexType.unbounded OP slice_size output_shape_prefix
          Tindices Tupdates Toutput := by
  by_cases hall : AllInBounds output_shape_prefix Tindices
  · rw [ScatterNdFunctorCPU_all _ _ _ _ _ _ _ hall, ScatterNdFunctorCPU_all _ _ _ _ _ _ _ hall,
      apply_rows_eq_unbounded Index OP _ _ _ _ _ hfit hall]
  · unfold AllInBounds at hall
    push_neg at hall
    obtain ⟨loc, hloc, hoob⟩ := hall
    obtain ⟨p, _, hp⟩ := exists_first_out_of_bounds output_shape_prefix Tindices loc
      hloc hoob
    rw [ScatterNdFunctorCPU_first _ _ _ _ _ _ _ p hp,
      ScatterNdFunctorCPU_first _ _ _ _ _ _ _ p hp,
      apply_rows_eq_unbounded Index OP _ _ _ _ _ hfit hp.2.2]

/-! ## Claims about the sequential backend -/

/-- The sequential functor at `Index = int32` on the shape prefix `[2, 2 ^ 32]`,
the single in-bounds row `(1, 0)` and an output of `rows` rows of one element:
the stride of dimension 0 is stored as `0`, so the row is applied to output row
`0`. -/
theorem ScatterNdFunctorCPU_int32_wrapped (OP : UpdateOp) (u : List Int) (rows : Nat)
    (hrows : 0 < rows) :
    ScatterNdFunctorCPU IndexType.int32 OP 1 [2, 2 ^ 32] [[1, 0]] [u] (zeros rows 1)
      = (-1, (zeros rows 1).set 0 (UpdateExecutor.Execute OP u [0])) := by
  have hall : AllInBounds [2, 2 ^ 32] [[1, 0]] := by decide
  have hoff : IndexType.int32.narrow (flat_offset [2, 2 ^ 32] [1, 0]) = 0 := by decide
  have hone : Tensor2.dimension0 [[(1 : Int), 0]] = 1 := rfl
  rw [ScatterNdFunctorCPU_all _ _ _ _ _ _ _ hall, hone, apply_rows_one, hoff,
    store_chip0_of_nonneg _ _ _ (le_refl _), Int.toNat_zero, chip0_zeros _ _ _ hrows]
  rfl

/-- C4, as the code has it: when the number of outer rows (the product of
`output_shape_prefix`) is representable in `Index`, on an all-in-bounds batch
(duplicate coordinates allowed) the sequential functor with ADD (resp. SUB)
leaves in `output[o][s]` the initial element plus (resp. minus) the elements
`updates[loc][s]` of the rows `loc` whose coordinate flattens to `o`, folded in
increasing `loc`. -/
theorem ScatterNdFunctorCPU_accumulates (Index : IndexType) (slice_size : Nat)
    ( output_shape_prefix : List Int) (Tindices Tupdates Toutput : Tensor2)
    (o s : Nat) (hfit : Index.fits output_shape_prefix.prod)
    (hin : AllInBounds output_shape_prefix Tindices)
    (hbatch : Tupdates.dimension0 = Tindices.dimension0)
    (hupd : RowsHaveLength Tupdates slice_size)
    (hout : RowsHaveLength Toutput slice_size)
    (ho : o < Toutput.dimension0) (hs : s < slice_size) :
    (ScatterNdFunctorCPU Index UpdateOp.ADD slice_size output_shape_prefix Tindices
        Tupdates Toutput).2.at o s
      = (rows_at output_shape_prefix Tindices o).foldl
          (fun acc loc => acc + Tupdates.at loc s) (Toutput.at o s) ∧
    (ScatterNdFunctorCPU Index UpdateOp.SUB slice_size output_shape_prefix Tindices
        Tupdates Toutput).2.at o s
      = (rows_at output_shape_prefix Tindices o).foldl
          (fun acc loc => acc - Tupdates.at loc s) (Toutput.at o s) := by
  have hupd2 : ∀ loc, loc < Tindices.dimension0 →
      (Tupdates.chip0 loc).length = slice_size :=
    fun loc hloc => hupd loc (by rw [hbatch]; exact hloc)
  constructor
  · rw [ScatterNdFunctorCPU_all _ _ _ _ _ _ _ hin]
    exact apply_rows_at Index UpdateOp.ADD output_shape_prefix Tindices Tupdates Toutput
      slice_size Tindices.dimension0 o s hfit hin hout hupd2 ho hs
  · rw [ScatterNdFunctorCPU_all _ _ _ _ _ _ _ hin]
    exact apply_rows_at Index UpdateOp.SUB output_shape_prefix Tindices Tupdates Toutput
      slice_size Tindices.dimension0 o s hfit hin hout hupd2 ho hs

/-- Witness of C4: at `Index = int32`, two rows with the same coordinate `1`
accumulate into `output[1][0]`. -/
theorem ScatterNdFunctorCPU_accumulates_witness :
    (ScatterNdFunctorCPU IndexType.int32 UpdateOp.ADD (1 : Nat) [2] [[1], [1]]
        [[5], [7]] [[10], [20]]).2.at 1 0
      = (rows_at [2] [[1], [1]] 1).foldl
          (fun acc loc => acc + Tensor2.at [[5], [7]] loc 0)
          (Tensor2.at [[10], [20]] 1 0) ∧
    (ScatterNdFunctorCPU IndexType.int32 UpdateOp.SUB (1 : Nat) [2] [[1], [1]]
        [[5], [7]] [[10], [20]]).2.at 1 0
      = (rows_at [2] [[1], [1]] 1).foldl
          (fun acc loc => acc - Tensor2.at [[5], [7]] loc 0)
          (Tensor2.at [[10], [20]] 1 0) :=
  ScatterNdFunctorCPU_accumulates IndexType.int32 1 [2] [[1], [1]] [[5], [7]]
    [[10], [20]] 1 0 (by decide) (by decide) (by decide) (by decide) (by decide)
    (by decide) (by decide)

/-- C4 fails as stated: at `Index = int32`, shape prefix `[2, 2 ^ 32]`, the
in-bounds row `(1, 0)` flattens to `2 ^ 32`, and no row flattens to `0`; on
the zero output of `2 ^ 33` rows the functor with ADD adds the update `5` to
`output[0][0]` and leaves `output[2 ^ 32][0]` at `0`. -/
theorem ScatterNdFunctorCPU_accumulates_fails :
    AllInBounds [2, 2 ^ 32] [[1, 0]] ∧
    rows_at [2, 2 ^ 32] [[1, 0]] 0 = [] ∧
    rows_at [2, 2 ^ 32] [[1, 0]] (2 ^ 32) = [0] ∧
    (ScatterNdFunctorCPU IndexType.int32 UpdateOp.ADD 1 [2, 2 ^ 32] [[1, 0]] [[5]]
      (zeros (2 ^ 33) 1)).2.at 0 0 = 5 ∧
    (ScatterNdFunctorCPU IndexType.int32 UpdateOp.ADD 1 [2, 2 ^ 32] [[1, 0]] [[5]]
      (zeros (2 ^ 33) 1)).2.at (2 ^ 32) 0 = 0 := by
  refine ⟨by decide, by decide, by decide, ?_, ?_⟩
  · rw [ScatterNdFunctorCPU_int32_wrapped _ _ _ (by norm_num)]
    unfold Tensor2.at
    rw [chip0_set, if_pos ⟨rfl, by rw [zeros_length]; norm_num⟩]
    rfl
  · rw [ScatterNdFunctorCPU_int32_wrapped _ _ _ (by norm_num)]
    unfold Tensor2.at
    rw [chip0_set, if_neg (by norm_num), chip0_zeros _ _ _ (by norm_num)]
    rfl

/-- C5: for a shape prefix with every dimension at least 1, the sequential
functor with ASSIGN on a zero-initialised output, a single all-zero index row
and a single update row returns `-1`; the output row at flat offset 0 is the
update row and every other row is still zero. -/
theorem ScatterNdFunctorCPU_assign_zero_row (Index : IndexType) (slice_size : Nat)
    ( output_shape_prefix : List Int) (update : List Int)
    (hshape : ∀ d ∈ output_shape_prefix, 1 ≤ d) :
    ScatterNdFunctorCPU Index UpdateOp.ASSIGN slice_size output_shape_prefix
        [List.replicate output_shape_prefix.length 0] [update]
        (zeros output_shape_prefix.prod.toNat slice_size)
      = (-1, update :: zeros ( output_shape_prefix.prod.toNat - 1) slice_size) := by
  have hrow : RowInBounds output_shape_prefix
      (List.replicate output_shape_prefix.length 0) := by
    intro dim hdim
    rw [getD_replicate_zero, List.getD_eq_getElem _ _ hdim]
    have := hshape _ (List.getElem_mem hdim)
    omega
  rw [ScatterNdFunctorCPU_all _ _ _ _ _ _ _ (all_in_bounds_single _ _ hrow)]
  have hprod := prod_pos_of_one_le output_shape_prefix hshape
  have hN : output_shape_prefix.prod.toNat
      = ( output_shape_prefix.prod.toNat - 1) + 1 := by omega
  have hone : Tensor2.dimension0 [List.replicate output_shape_prefix.length (0 : Int)]
      = 1 := rfl
  rw [hone, apply_rows_one, flat_offset_zero_row, narrow_zero,
    store_chip0_of_nonneg _ _ _ (le_refl _), Int.toNat_zero]
  conv_lhs => rw [hN]
  rfl

/-- Witness of C5: shape prefix `[2, 3]`, slices of two elements. -/
theorem ScatterNdFunctorCPU_assign_zero_row_witness :
    ScatterNdFunctorCPU IndexType.int32 UpdateOp.ASSIGN (2 : Nat) [2, 3]
        [List.replicate [(2 : Int), 3].length 0] [[7, 9]]
        (zeros [(2 : Int), 3].prod.toNat 2)
      = (-1, [7, 9] :: zeros ([(2 : Int), 3].prod.toNat - 1) 2) :=
  ScatterNdFunctorCPU_assign_zero_row IndexType.int32 2 [2, 3] [7, 9] (by decide)

/-- C6: in exact integer arithmetic, on a zero-initialised output and a single
in-bounds index row, the sequential functor with ADD leaves the addressed row
equal to the update row and with SUB leaves it equal to the negated update row;
every other row is still zero. The addressed row `i` is the flat offset of the
coordinate. -/
theorem ScatterNdFunctorCPU_add_sub_zero (slice_size : Nat)
    ( output_shape_prefix : List Int) (row update : List Int)
    (hrow : RowInBounds output_shape_prefix row)
    (hupd : update.length = slice_size) :
    ∃ i, i < output_shape_prefix.prod.toNat ∧
      (i : Int) = flat_offset output_shape_prefix row ∧
      ScatterNdFunctorCPU IndexType.unbounded UpdateOp.ADD slice_size
          output_shape_prefix [row] [update]
          (zeros output_shape_prefix.prod.toNat slice_size)
        = (-1, (zeros output_shape_prefix.prod.toNat slice_size).set i update) ∧
      ScatterNdFunctorCPU IndexType.unbounded UpdateOp.SUB slice_size
          output_shape_prefix [row] [update]
          (zeros output_shape_prefix.prod.toNat slice_size)
        = (-1, (zeros output_shape_prefix.prod.toNat slice_size).set i
            (update.map (fun u => -u))) := by
  obtain ⟨h0, hlt⟩ := flat_offset_bounds output_shape_prefix row hrow
  have hi : (flat_offset output_shape_prefix row).toNat
      < output_shape_prefix.prod.toNat := by omega
  have hn : IndexType.unbounded.narrow (flat_offset output_shape_prefix row)
      = flat_offset output_shape_prefix row := rfl
  refine ⟨(flat_offset output_shape_prefix row).toNat, hi, by omega, ?_, ?_⟩
  · rw [ScatterNdFunctorCPU_all _ _ _ _ _ _ _ (all_in_bounds_single _ _ hrow)]
    have hone : Tensor2.dimension0 [row] = 1 := rfl
    rw [hone, apply_rows_one, hn, store_chip0_of_nonneg _ _ _ h0,
      chip0_zeros _ _ _ hi, ← hupd]
    simp only [UpdateExecutor.Execute, zipWith_add_zero]
  · rw [ScatterNdFunctorCPU_all _ _ _ _ _ _ _ (all_in_bounds_single _ _ hrow)]
    have hone : Tensor2.dimension0 [row] = 1 := rfl
    rw [hone, apply_rows_one, hn, store_chip0_of_nonneg _ _ _ h0,
      chip0_zeros _ _ _ hi, ← hupd]
    simp only [UpdateExecutor.Execute, zipWith_sub_zero]

/-- Witness of C6: shape prefix `[2, 3]`, coordinate `(1, 2)`, slices of two
elements. -/
theorem ScatterNdFunctorCPU_add_sub_zero_witness :
    ∃ i, i < [(2 : Int), 3].prod.toNat ∧
      (i : Int) = flat_offset [2, 3] [1, 2] ∧
      ScatterNdFunctorCPU IndexType.unbounded UpdateOp.ADD (2 : Nat) [2, 3] [[1, 2]]
          [[4, 5]] (zeros [(2 : Int), 3].prod.toNat 2)
        = (-1, (zeros [(2 : Int), 3].prod.toNat 2).set i [4, 5]) ∧
      ScatterNdFunctorCPU IndexType.unbounded UpdateOp.SUB (2 : Nat) [2, 3] [[1, 2]]
          [[4, 5]] (zeros [(2 : Int), 3].prod.toNat 2)
        = (-1, (zeros [(2 : Int), 3].prod.toNat 2).set i
            ([4, 5].map (fun u => -u))) :=
  ScatterNdFunctorCPU_add_sub_zero 2 [2, 3] [1, 2] [4, 5] (by decide) (by decide)

/-! ## The accelerator backend -/

theorem foldl_filter_eq {α β : Type} (p : α → Bool) (f : β → α → β) (l : List α) (b : β) :
    (l.filter p).foldl f b = l.foldl (fun acc x => if p x then f acc x else acc) b := by
  induction l generalizing b with
  | nil => rfl
  | cons x l ih =>
    by_cases hx : p x
    · simp [List.filter_cons, hx, ih]
    · simp [List.filter_cons, hx, ih]

theorem LeftUpdateSYCL_eq (op : UpdateOp) (buf : List Int) (p : Int) (val : Int) :
    LeftUpdateSYCL op buf p val
      = if 0 ≤ p then buf.set p.toNat (combine op (buf.getD p.toNat 0) val) else buf := by
  unfold LeftUpdateSYCL
  cases op <;> rfl

theorem LeftUpdateSYCL_length (op : UpdateOp) (buf : List Int) (p : Int) (val : Int) :
    (LeftUpdateSYCL op buf p val).length = buf.length := by
  rw [LeftUpdateSYCL_eq]
  split <;> simp

/-- The buffer after the first `n` iterations of the slice loop of the kernel,
element by element. -/
theorem kernel_slice_fold_getD (op : UpdateOp) (updates : List Int) (slice_size : Int)
    (index : Nat) (i : Int) (out : List Int) (n : Nat) :
    ((List.range n).foldl (kernel_slice_step op updates slice_size index i) out).length
      = out.length ∧
    ∀ j : Nat, j < out.length →
      ((List.range n).foldl (kernel_slice_step op updates slice_size index i) out).getD j 0
        = if i ≤ (j : Int) ∧ (j : Int) < i + n then
            combine op (out.getD j 0)
              (updates.getD (index * slice_size + ((j : Int) - i)).toNat 0)
          else out.getD j 0 := by
  induction n with
  | zero =>
    refine ⟨rfl, fun j _ => ?_⟩
    rw [if_neg (by omega)]
    rfl
  | succ n ih =>
    obtain ⟨hlen, hget⟩ := ih
    rw [foldl_range_succ]
    refine ⟨by rw [kernel_slice_step, LeftUpdateSYCL_length, hlen], fun j hj => ?_⟩
    rw [kernel_slice_step, LeftUpdateSYCL_eq]
    by_cases hp : 0 ≤ i + (n : Int)
    · rw [if_pos hp, getD_set_eq]
      by_cases hjn : (i + (n : Int)).toNat = j
      · have hji : (j : Int) = i + n := by omega
        rw [if_pos ⟨hjn, by rw [hlen, hjn]; exact hj⟩, hjn, hget j hj,
          if_neg (by omega), if_pos (by push_cast; omega)]
        have hsub : (j : Int) - i = (n : Int) := by omega
        rw [hsub]
      · rw [if_neg (fun hh => hjn hh.1), hget j hj]
        by_cases hc : i ≤ (j : Int) ∧ (j : Int) < i + n
        · rw [if_pos hc, if_pos (by push_cast; omega)]
        · rw [if_neg hc, if_neg (by push_cast; omega)]
    · rw [if_neg hp, hget j hj]
      by_cases hc : i ≤ (j : Int) ∧ (j : Int) < i + n
      · rw [if_pos hc, if_pos (by push_cast; omega)]
      · rw [if_neg hc, if_neg (by push_cast; omega)]

/-- The slice loop of the kernel combines the update row with the slice that
starts at element `i` and keeps every other element. -/
theorem kernel_slice_loop_eq (op : UpdateOp) (updates : List Int) (slice_size : Int)
    (index : Nat) (i : Int) (out : List Int) :
    kernel_slice_loop op updates slice_size index i out
      = combine_slice op updates slice_size index i out := by
  obtain ⟨hlen, hget⟩ := kernel_slice_fold_getD op updates slice_size index i out
    slice_size.toNat
  unfold kernel_slice_loop combine_slice
  apply List.ext_getElem
  · rw [hlen]
    simp
  · intro j h1 h2
    have hj : j < out.length := by rw [← hlen]; exact h1
    have := hget j hj
    rw [List.getD_eq_getElem _ _ h1] at this
    rw [this, List.getElem_map, List.getElem_range]
    by_cases hc : i ≤ (j : Int) ∧ (j : Int) < i + slice_size
    · rw [if_pos hc, if_pos (by omega)]
    · rw [if_neg hc, if_neg (by omega)]

theorem kernel_index_step_eq (Index : IndexType) (op : UpdateOp)
    (indices updates : List Int)
    ( output_shape_prefix : List Int) (strides : List Int) (slice_size : Int)
    (out : List Int) (index : Nat) :
    kernel_index_step Index op indices updates output_shape_prefix strides slice_size
        out index
      = if decide (KernelRowInBounds indices output_shape_prefix index) = true then
          kernel_combine_row Index op indices updates output_shape_prefix strides
            slice_size out index
        else out := by
  have hsnd := kernel_dim_fold_snd Index indices output_shape_prefix strides slice_size
    index output_shape_prefix.length
  have hfst := kernel_dim_fold_fst Index indices output_shape_prefix strides slice_size
    index output_shape_prefix.length
  unfold kernel_index_step kernel_combine_row kernel_row_offset kernel_dim_loop
  by_cases hrow : KernelRowInBounds indices output_shape_prefix index
  · have h2 := hsnd.mpr hrow
    simp only [h2, hfst, hrow, decide_True, if_true, Bool.not_false,
      kernel_slice_loop_eq]
  · have h2 : ((List.range output_shape_prefix.length).foldl
        (kernel_dim_step Index indices output_shape_prefix strides slice_size index)
        (0, false)).2 = true := by
      cases hb : ((List.range output_shape_prefix.length).foldl
        (kernel_dim_step Index indices output_shape_prefix strides slice_size index)
        (0, false)).2
      · exact absurd (hsnd.mp hb) hrow
      · rfl
    simp [h2, hrow]

theorem parallel_for_eq_iterate (schedule : List Nat) (k : List Int → List Int)
    (buf : List Int) :
    parallel_for schedule (fun _ b => k b) buf = (k^[schedule.length]) buf := by
  induction schedule generalizing buf with
  | nil => rfl
  | cons id rest ih =>
    simp only [parallel_for, List.foldl_cons, List.length_cons, Function.iterate_succ,
      Function.comp]
    exact ih (k buf)

theorem ScatterNdFunctorSYCL_eq_iterate (Index : IndexType) (OP : UpdateOp)
    (slice_size : Int)
    ( output_shape_prefix : List Int) (Tindices Tupdates Toutput : Tensor2)
    (schedule : List Nat) :
    (ScatterNdFunctorSYCL Index OP slice_size output_shape_prefix Tindices Tupdates
        Toutput schedule).2
      = ((ScatterNdKernel Index OP Tindices.data Tupdates.data output_shape_prefix
          (batch_strides_sycl Index output_shape_prefix) Tindices.dimension0 slice_size
          0)^[schedule.length]) Toutput.data := by
  unfold ScatterNdFunctorSYCL
  exact parallel_for_eq_iterate schedule _ Toutput.data

/-- C10: one execution of `ScatterNdKernel::operator()` skips exactly the rows
with a coordinate out of bounds and applies the combine of every other row of
the batch, in increasing position (so also of in-bounds rows that follow an
out-of-bounds row): the resulting buffer is obtained from `out` by combining, for
each in-bounds row in turn, the `slice_size` elements that start at the row's
element offset with the row's updates, every other element being kept; and
`ScatterNdFunctor<SYCLDevice>` returns `-1` for every input. -/
theorem ScatterNdKernel_skips_out_of_bounds (Index : IndexType) (op : UpdateOp)
    (indices updates : List Int)
    ( output_shape_prefix : List Int) (strides : List Int) (num_indices : Nat)
    (slice_size : Int) (id : Nat) (out : List Int)
    (Tindices Tupdates Toutput : Tensor2) (schedule : List Nat) :
    ScatterNdKernel Index op indices updates output_shape_prefix strides num_indices
        slice_size id out
      = (kernel_rows_in_bounds indices output_shape_prefix num_indices).foldl
          (fun (buf : List Int) (index : Nat) =>
            combine_slice op updates slice_size index
              (kernel_row_offset Index indices output_shape_prefix strides slice_size
                index) buf)
          out ∧
    (ScatterNdFunctorSYCL Index op slice_size output_shape_prefix Tindices Tupdates
      Toutput schedule).1 = -1 := by
  refine ⟨?_, rfl⟩
  unfold ScatterNdKernel kernel_rows_in_bounds
  rw [foldl_filter_eq]
  congr 1
  funext acc index
  exact kernel_index_step_eq Index op indices updates output_shape_prefix strides
    slice_size acc index

/-- C1 (the code departs from the claim): shape prefix `[2]`, one in-bounds row
`[0]`, update `[1]`, ADD, on the zero output of two elements, for every `Index`.
The sequential functor leaves `[1, 0]`; the launch of `Toutput.size() = 2`
work-items leaves `[2, 0]` in either order, since every work-item applies the
whole batch. -/
theorem ScatterNdFunctorSYCL_differs_from_CPU (Index : IndexType) :
    AllInBounds [2] [[0]] ∧
    ScatterNdFunctorSYCL.num_threads [[0], [0]] = 2 ∧
    (ScatterNdFunctorCPU Index UpdateOp.ADD 1 [2] [[0]] [[1]] [[0], [0]]).2.data
      = [1, 0] ∧
    (ScatterNdFunctorSYCL Index UpdateOp.ADD 1 [2] [[0]] [[1]] [[0], [0]] [0, 1]).2
      = [2, 0] ∧
    (ScatterNdFunctorSYCL Index UpdateOp.ADD 1 [2] [[0]] [[1]] [[0], [0]] [1, 0]).2
      = [2, 0] := by
  cases Index <;> decide

/-- C9 (the code departs from the claim): shape prefix `[1]`, one in-bounds row
`[0]`, update `[1, 2, 3]`, ADD, on the zero output of three elements, for every
`Index`. One execution of the kernel applies the row once (`[1, 2, 3]`); the
launch of `Toutput.size() = 3` work-items applies it three times
(`[3, 6, 9]`). -/
theorem ScatterNdFunctorSYCL_applies_row_per_work_item (Index : IndexType) :
    ScatterNdFunctorSYCL.num_threads [[0, 0, 0]] = 3 ∧
    ScatterNdKernel Index UpdateOp.ADD [0] [1, 2, 3] [1] (batch_strides_sycl Index [1])
        1 3 0 [0, 0, 0]
      = [1, 2, 3] ∧
    (ScatterNdFunctorSYCL Index UpdateOp.ADD 3 [1] [[0]] [[1, 2, 3]] [[0, 0, 0]]
      [0, 1, 2]).2
      = [3, 6, 9] := by
  cases Index <;> decide

/-! ## Work partitioning -/

theorem add_sub_one_div (n d : Nat) (hd : 1 ≤ d) : (n + d - 1) / d = ceil_div n d := by
  unfold ceil_div
  have hqr := Nat.div_add_mod n d
  have hr := Nat.mod_lt n (show d > 0 by omega)
  have hcomm : n / d * d = d * (n / d) := Nat.mul_comm _ _
  split
  · apply Nat.div_eq_of_lt_le
    · simp only [Nat.add_zero]
      omega
    · simp only [Nat.add_zero, Nat.add_mul, Nat.one_mul]
      omega
  · apply Nat.div_eq_of_lt_le
    · simp only [Nat.add_mul, Nat.one_mul]
      omega
    · simp only [Nat.add_mul, Nat.one_mul]
      omega

theorem ceil_div_mul_ge (n d : Nat) (hd : 1 ≤ d) : n ≤ ceil_div n d * d := by
  unfold ceil_div
  have hqr := Nat.div_add_mod n d
  have hr := Nat.mod_lt n (show d > 0 by omega)
  have hcomm : n / d * d = d * (n / d) := Nat.mul_comm _ _
  split
  · simp only [Nat.add_zero]
    omega
  · simp only [Nat.add_mul, Nat.one_mul]
    omega

theorem sycl_groups_no_wrap (d : SyclDevice) (N : Nat) (hN : 1 ≤ N)
    (hW : 1 ≤ (get_max_work_item_tuple d).1)
    (hfit : N + min N (get_max_work_item_tuple d).1 - 1 < SIZE_T_MOD) :
    N % SIZE_T_MOD = N ∧
    min N (get_max_work_item_tuple d).1 ≠ 0 ∧
    (N + min N (get_max_work_item_tuple d).1 - 1) % SIZE_T_MOD
        / min N (get_max_work_item_tuple d).1
      = ceil_div N (min N (get_max_work_item_tuple d).1) ∧
    (ceil_div N (min N (get_max_work_item_tuple d).1)
        * min N (get_max_work_item_tuple d).1) % SIZE_T_MOD
      = ceil_div N (min N (get_max_work_item_tuple d).1)
        * min N (get_max_work_item_tuple d).1 := by
  have hgs : 1 ≤ min N (get_max_work_item_tuple d).1 := le_min hN hW
  have hNlt : N < SIZE_T_MOD := by omega
  refine ⟨Nat.mod_eq_of_lt hNlt, by omega, ?_, ?_⟩
  · rw [Nat.mod_eq_of_lt hfit, add_sub_one_div _ _ hgs]
  · apply Nat.mod_eq_of_lt
    rw [← add_sub_one_div _ _ hgs]
    exact Nat.lt_of_le_of_lt (Nat.div_mul_le_self _ _) hfit

/-- C7, as the code has it: for `N >= 1` and `W >= 1` with `N + min(N, W) - 1`
representable in `size_t`, both overloads of `get_sycl_nd_range` return, with
`group_size = min(N, W)` and `group_count = (N + group_size - 1) / group_size`,
and `group_size * group_count >= N` and `group_size <= W`. -/
theorem get_sycl_nd_range_covers (d : SyclDevice) (N item_dim1 : Nat) (hN : 1 ≤ N)
    (hW : 1 ≤ (get_max_work_item_tuple d).1)
    (hfit : N + min N (get_max_work_item_tuple d).1 - 1 < SIZE_T_MOD) :
    ∃ group_size group_count,
      group_size = min N (get_max_work_item_tuple d).1 ∧
      group_count = (N + group_size - 1) / group_size ∧
      get_sycl_nd_range d N = some ⟨group_count * group_size, group_size⟩ ∧
      get_sycl_nd_range2 d N item_dim1
        = some ⟨(group_count * group_size, item_dim1 % SIZE_T_MOD), (group_size, 1)⟩ ∧
      N ≤ group_size * group_count ∧
      group_size ≤ (get_max_work_item_tuple d).1 := by
  obtain ⟨h1, h2, h3, h4⟩ := sycl_groups_no_wrap d N hN hW hfit
  have hgs : 1 ≤ min N (get_max_work_item_tuple d).1 := le_min hN hW
  refine ⟨min N (get_max_work_item_tuple d).1,
    (N + min N (get_max_work_item_tuple d).1 - 1) / min N (get_max_work_item_tuple d).1,
    rfl, rfl, ?_, ?_, ?_, min_le_right _ _⟩
  · unfold get_sycl_nd_range
    simp only [h1, h2, if_false, h3, h4, add_sub_one_div _ _ hgs]
  · unfold get_sycl_nd_range2
    simp only [h1, h2, if_false, h3, h4, add_sub_one_div _ _ hgs]
  · rw [add_sub_one_div _ _ hgs, Nat.mul_comm]
    exact ceil_div_mul_ge _ _ hgs

/-- Witness of C7: ten items on a device of width four. -/
theorem get_sycl_nd_range_covers_witness :
    ∃ group_size group_count,
      group_size = min 10 (get_max_work_item_tuple ⟨(4, 4, 4)⟩).1 ∧
      group_count = (10 + group_size - 1) / group_size ∧
      get_sycl_nd_range ⟨(4, 4, 4)⟩ 10 = some ⟨group_count * group_size, group_size⟩ ∧
      get_sycl_nd_range2 ⟨(4, 4, 4)⟩ 10 7
        = some ⟨(group_count * group_size, 7 % SIZE_T_MOD), (group_size, 1)⟩ ∧
      10 ≤ group_size * group_count ∧
      group_size ≤ (get_max_work_item_tuple ⟨(4, 4, 4)⟩).1 :=
  get_sycl_nd_range_covers ⟨(4, 4, 4)⟩ 10 7 (by decide) (by decide) (by decide)

/-- C7 fails as stated: with `N = 0` (or `W = 0`) the group size is zero and the
division has no result; and with `N = 2 ^ 64 - 1`, `W = 2` the sum
`N + group_size - 1` wraps to zero, so the global range `group_count *
group_size` is `0`, below `N`. -/
theorem get_sycl_nd_range_covers_fails :
    get_sycl_nd_range ⟨(4, 4, 4)⟩ 0 = none ∧
    get_sycl_nd_range2 ⟨(4, 4, 4)⟩ 0 7 = none ∧
    get_sycl_nd_range ⟨(0, 0, 0)⟩ 5 = none ∧
    get_sycl_nd_range ⟨(2, 2, 2)⟩ (2 ^ 64 - 1) = some ⟨0, 2⟩ ∧
    get_sycl_nd_range2 ⟨(2, 2, 2)⟩ (2 ^ 64 - 1) 7 = some ⟨(0, 7), (2, 1)⟩ := by
  decide

/-- C8, as the code has it: for `N >= 1` and `W >= 1` with `N + min(N, W) - 1`
representable in `size_t`, both overloads use the group size `min(N, W)` and the
group count `ceil(N / group size)`: the 1-D overload returns the global range
`group_count * group_size` with local range `group_size`; the 2-D overload
returns the global range `(group_count * group_size, item_dim1)` with local range
`(group_size, 1)`. -/
theorem get_sycl_nd_range_grid (d : SyclDevice) (N item_dim1 : Nat) (hN : 1 ≤ N)
    (hW : 1 ≤ (get_max_work_item_tuple d).1)
    (hfit : N + min N (get_max_work_item_tuple d).1 - 1 < SIZE_T_MOD)
    (hdim1 : item_dim1 < SIZE_T_MOD) :
    get_sycl_nd_range d N
      = some ⟨ceil_div N (min N (get_max_work_item_tuple d).1)
          * min N (get_max_work_item_tuple d).1,
        min N (get_max_work_item_tuple d).1⟩ ∧
    get_sycl_nd_range2 d N item_dim1
      = some ⟨(ceil_div N (min N (get_max_work_item_tuple d).1)
            * min N (get_max_work_item_tuple d).1, item_dim1),
        (min N (get_max_work_item_tuple d).1, 1)⟩ := by
  obtain ⟨h1, h2, h3, h4⟩ := sycl_groups_no_wrap d N hN hW hfit
  constructor
  · unfold get_sycl_nd_range
    simp only [h1, h2, if_false, h3, h4]
  · unfold get_sycl_nd_range2
    simp only [h1, h2, if_false, h3, h4, Nat.mod_eq_of_lt hdim1]

/-- Witness of C8: ten items on a device of width four. -/
theorem get_sycl_nd_range_grid_witness :
    get_sycl_nd_range ⟨(4, 4, 4)⟩ 10
      = some ⟨ceil_div 10 (min 10 (get_max_work_item_tuple ⟨(4, 4, 4)⟩).1)
          * min 10 (get_max_work_item_tuple ⟨(4, 4, 4)⟩).1,
        min 10 (get_max_work_item_tuple ⟨(4, 4, 4)⟩).1⟩ ∧
    get_sycl_nd_range2 ⟨(4, 4, 4)⟩ 10 7
      = some ⟨(ceil_div 10 (min 10 (get_max_work_item_tuple ⟨(4, 4, 4)⟩).1)
            * min 10 (get_max_work_item_tuple ⟨(4, 4, 4)⟩).1, 7),
        (min 10 (get_max_work_item_tuple ⟨(4, 4, 4)⟩).1, 1)⟩ :=
  get_sycl_nd_range_grid ⟨(4, 4, 4)⟩ 10 7 (by decide) (by decide) (by decide)
    (by decide)

/-- C8 fails as stated: with `N = 2 ^ 64 - 1` and `W = 2` the sum
`N + group_size - 1` wraps to zero in `size_t`, so the group count is `0`, not
`ceil(N / 2) = 2 ^ 63`, and the global range is `0`. -/
theorem get_sycl_nd_range_grid_fails :
    min (2 ^ 64 - 1) (get_max_work_item_tuple ⟨(2, 2, 2)⟩).1 = 2 ∧
    ceil_div (2 ^ 64 - 1) 2 = 2 ^ 63 ∧
    get_sycl_nd_range ⟨(2, 2, 2)⟩ (2 ^ 64 - 1) = some ⟨0, 2⟩ ∧
    get_sycl_nd_range2 ⟨(2, 2, 2)⟩ (2 ^ 64 - 1) 7 = some ⟨(0, 7), (2, 1)⟩ := by
  decide

/-! ## Claims about strides and offsets -/

/-- C11: in unbounded integer arithmetic, for an index row that passes the
bounds check, the flat offset `i` computed by the sequential functor satisfies
`0 <= i < product of output_shape_prefix`, so the slice
`[i * slice_size, (i + 1) * slice_size)` lies inside a destination of
`product * slice_size` elements; the element offset computed by
`ScatterNdKernel` is `i * slice_size` for such an `i`, with the same bounds. -/
theorem flat_offset_in_range ( output_shape_prefix : List Int) (row indices : List Int)
    (slice_size : Int) (index : Nat) (hss : 0 ≤ slice_size) :
    (RowInBounds output_shape_prefix row →
      (cpu_dim_loop IndexType.unbounded output_shape_prefix
          (batch_strides IndexType.unbounded output_shape_prefix) row).1
        = flat_offset output_shape_prefix row ∧
      0 ≤ (cpu_dim_loop IndexType.unbounded output_shape_prefix
          (batch_strides IndexType.unbounded output_shape_prefix) row).1 ∧
      (cpu_dim_loop IndexType.unbounded output_shape_prefix
          (batch_strides IndexType.unbounded output_shape_prefix) row).1
        < output_shape_prefix.prod ∧
      0 ≤ (cpu_dim_loop IndexType.unbounded output_shape_prefix
          (batch_strides IndexType.unbounded output_shape_prefix) row).1
        * slice_size ∧
      ((cpu_dim_loop IndexType.unbounded output_shape_prefix
          (batch_strides IndexType.unbounded output_shape_prefix) row).1 + 1)
        * slice_size ≤ output_shape_prefix.prod * slice_size) ∧
    (KernelRowInBounds indices output_shape_prefix index →
      ∃ i : Int, 0 ≤ i ∧ i < output_shape_prefix.prod ∧
        (kernel_dim_loop IndexType.unbounded indices output_shape_prefix
          (batch_strides_sycl IndexType.unbounded output_shape_prefix) slice_size
          index).1 = i * slice_size ∧
        0 ≤ i * slice_size ∧
        (i + 1) * slice_size ≤ output_shape_prefix.prod * slice_size) := by
  constructor
  · intro hrow
    obtain ⟨h0, hlt⟩ := flat_offset_bounds output_shape_prefix row hrow
    obtain ⟨hs0, hs1⟩ := slice_in_range _ _ _ h0 hlt hss
    rw [cpu_dim_loop_fst]
    exact ⟨rfl, h0, hlt, hs0, hs1⟩
  · intro hk
    have hrow := (kernel_row_in_bounds indices output_shape_prefix index).mp hk
    obtain ⟨h0, hlt⟩ := flat_offset_bounds output_shape_prefix _ hrow
    obtain ⟨hs0, hs1⟩ := slice_in_range _ _ _ h0 hlt hss
    exact ⟨_, h0, hlt,
      kernel_dim_loop_fst IndexType.unbounded indices output_shape_prefix slice_size
        index, hs0, hs1⟩

/-- Witness of C11: shape prefix `[2, 3]`, coordinate `(1, 2)`, slices of two
elements; for the kernel the coordinate is row 1 of the flat index buffer. -/
theorem flat_offset_in_range_witness :
    ((cpu_dim_loop IndexType.unbounded [2, 3] (batch_strides IndexType.unbounded [2, 3])
          [1, 2]).1 = flat_offset [2, 3] [1, 2] ∧
      0 ≤ (cpu_dim_loop IndexType.unbounded [2, 3]
          (batch_strides IndexType.unbounded [2, 3]) [1, 2]).1 ∧
      (cpu_dim_loop IndexType.unbounded [2, 3] (batch_strides IndexType.unbounded [2, 3])
          [1, 2]).1 < [(2 : Int), 3].prod ∧
      0 ≤ (cpu_dim_loop IndexType.unbounded [2, 3]
          (batch_strides IndexType.unbounded [2, 3]) [1, 2]).1 * 2 ∧
      ((cpu_dim_loop IndexType.unbounded [2, 3]
          (batch_strides IndexType.unbounded [2, 3]) [1, 2]).1 + 1) * 2
        ≤ [(2 : Int), 3].prod * 2) ∧
    (∃ i : Int, 0 ≤ i ∧ i < [(2 : Int), 3].prod ∧
        (kernel_dim_loop IndexType.unbounded [0, 0, 1, 2] [2, 3]
          (batch_strides_sycl IndexType.unbounded [2, 3]) 2 1).1 = i * 2 ∧
        0 ≤ i * 2 ∧ (i + 1) * 2 ≤ [(2 : Int), 3].prod * 2) :=
  ⟨(flat_offset_in_range [2, 3] [1, 2] [0, 0, 1, 2] 2 1 (by decide)).1 (by decide),
    (flat_offset_in_range [2, 3] [1, 2] [0, 0, 1, 2] 2 1 (by decide)).2 (by decide)⟩

theorem list_ext_getD (a b : List Int) (hlen : a.length = b.length)
    (h : ∀ d, d < a.length → a.getD d 0 = b.getD d 0) : a = b := by
  apply List.ext_getElem hlen
  intro d h1 h2
  have := h d h1
  rw [List.getD_eq_getElem _ _ h1, List.getD_eq_getElem _ _ h2] at this
  exact this

theorem batch_strides_length (Index : IndexType) ( output_shape_prefix : List Int) :
    (batch_strides Index output_shape_prefix).length = output_shape_prefix.length := by
  unfold batch_strides
  rw [batch_strides_loop_length]
  simp

theorem batch_strides_sycl_length (Index : IndexType) ( output_shape_prefix : List Int) :
    (batch_strides_sycl Index output_shape_prefix).length
      = output_shape_prefix.length := by
  unfold batch_strides_sycl
  rw [batch_strides_sycl_loop_length]
  simp

/-- C14, as the code has it: when every row-major stride of the shape prefix
(the product of `output_shape_prefix[k]` over `dim < k < IXDIM`) is
representable in `Index`, the stride loops of both functors yield row-major
strides: each array has `IXDIM` entries, the entry `IXDIM - 1` is `1`, and for
`dim < IXDIM - 1` the entry `dim` is that product; the `Index` strides of the
CPU functor and the `int64` strides of the SYCL functor are then equal. -/
theorem batch_strides_row_major (Index : IndexType) ( output_shape_prefix : List Int)
    (hfit : ∀ dim, dim < output_shape_prefix.length →
      Index.fits (row_major_stride output_shape_prefix dim)) :
    (batch_strides Index output_shape_prefix).length = output_shape_prefix.length ∧
    (batch_strides_sycl Index output_shape_prefix).length
      = output_shape_prefix.length ∧
    (∀ dim, dim + 1 = output_shape_prefix.length →
      (batch_strides Index output_shape_prefix).getD dim 0 = 1 ∧
      (batch_strides_sycl Index output_shape_prefix).getD dim 0 = 1) ∧
    (∀ dim, dim + 1 < output_shape_prefix.length →
      (batch_strides Index output_shape_prefix).getD dim 0
        = ∏ k ∈ Finset.Ioo dim output_shape_prefix.length,
            output_shape_prefix.getD k 0 ∧
      (batch_strides_sycl Index output_shape_prefix).getD dim 0
        = ∏ k ∈ Finset.Ioo dim output_shape_prefix.length,
            output_shape_prefix.getD k 0) ∧
    batch_strides Index output_shape_prefix
      = batch_strides_sycl Index output_shape_prefix ∧
    (∀ (OP : UpdateOp) (slice_size : Int) (Tindices Tupdates Toutput : Tensor2)
        (schedule : List Nat),
      ScatterNdFunctorCPU Index OP slice_size output_shape_prefix Tindices Tupdates
          Toutput
        = cpu_loc_loop Index OP output_shape_prefix
            (batch_strides Index output_shape_prefix)
            Tindices Tupdates Tindices.dimension0 0 Toutput ∧
      ScatterNdFunctorSYCL Index OP slice_size output_shape_prefix Tindices Tupdates
          Toutput schedule
        = (-1, parallel_for schedule
            (ScatterNdKernel Index OP Tindices.data Tupdates.data output_shape_prefix
              (batch_strides_sycl Index output_shape_prefix) Tindices.dimension0
              slice_size)
            Toutput.data)) := by
  have hcpu : ∀ dim, dim < output_shape_prefix.length →
      (batch_strides Index output_shape_prefix).getD dim 0
        = row_major_stride output_shape_prefix dim := by
    intro dim hdim
    rw [batch_strides_getD _ _ _ hdim]
    exact hfit dim hdim
  have hsycl : ∀ dim, dim < output_shape_prefix.length →
      (batch_strides_sycl Index output_shape_prefix).getD dim 0
        = row_major_stride output_shape_prefix dim := by
    intro dim hdim
    rw [batch_strides_sycl_getD _ _ _ hdim]
    exact narrow64_of_fits Index _ (hfit dim hdim)
  have hprod : ∀ dim, row_major_stride output_shape_prefix dim
      = ∏ k ∈ Finset.Ioo dim output_shape_prefix.length,
          output_shape_prefix.getD k 0 := by
    intro dim
    unfold row_major_stride
    rw [prod_drop_eq, ← Nat.Ico_succ_left]
  refine ⟨batch_strides_length _ _, batch_strides_sycl_length _ _, ?_, ?_, ?_,
    fun _ _ _ _ _ _ => ⟨rfl, rfl⟩⟩
  · intro dim hdim
    rw [hcpu dim (by omega), hsycl dim (by omega)]
    exact ⟨row_major_stride_last _ _ hdim, row_major_stride_last _ _ hdim⟩
  · intro dim hdim
    rw [hcpu dim (by omega), hsycl dim (by omega)]
    exact ⟨hprod dim, hprod dim⟩
  · apply list_ext_getD _ _ (by rw [batch_strides_length, batch_strides_sycl_length])
    intro d hd
    rw [batch_strides_length] at hd
    rw [hcpu d hd, hsycl d hd]

/-- Witness of C14: `Index = int32`, shape prefix `[2, 3, 4]`; the entry 2 is
`1` and the entry 0 is the product over `0 < k < 3`. -/
theorem batch_strides_row_major_witness :
    (batch_strides IndexType.int32 [2, 3, 4]).length = [(2 : Int), 3, 4].length ∧
    (batch_strides_sycl IndexType.int32 [2, 3, 4]).length = [(2 : Int), 3, 4].length ∧
    ((batch_strides IndexType.int32 [2, 3, 4]).getD 2 0 = 1 ∧
      (batch_strides_sycl IndexType.int32 [2, 3, 4]).getD 2 0 = 1) ∧
    ((batch_strides IndexType.int32 [2, 3, 4]).getD 0 0
        = ∏ k ∈ Finset.Ioo 0 [(2 : Int), 3, 4].length, [(2 : Int), 3, 4].getD k 0 ∧
      (batch_strides_sycl IndexType.int32 [2, 3, 4]).getD 0 0
        = ∏ k ∈ Finset.Ioo 0 [(2 : Int), 3, 4].length, [(2 : Int), 3, 4].getD k 0) ∧
    batch_strides IndexType.int32 [2, 3, 4] = batch_strides_sycl IndexType.int32 [2, 3, 4] :=
  ⟨(batch_strides_row_major IndexType.int32 [2, 3, 4] (by decide)).1,
    (batch_strides_row_major IndexType.int32 [2, 3, 4] (by decide)).2.1,
    (batch_strides_row_major IndexType.int32 [2, 3, 4] (by decide)).2.2.1 2 (by decide),
    (batch_strides_row_major IndexType.int32 [2, 3, 4] (by decide)).2.2.2.1 0 (by decide),
    (batch_strides_row_major IndexType.int32 [2, 3, 4] (by decide)).2.2.2.2.1⟩

/-- C14 fails as stated: at `Index = int32` and shape prefix `[2, 2 ^ 32]` the
row-major stride of dimension 0 is `2 ^ 32`; the CPU functor stores it in an
`Index` as `0`, the SYCL functor holds `2 ^ 32` in its `int64` array, so the
CPU stride is not the product and the two stride arrays differ. -/
theorem batch_strides_row_major_fails :
    row_major_stride [2, 2 ^ 32] 0 = 2 ^ 32 ∧
    batch_strides IndexType.int32 [2, 2 ^ 32] = [0, 1] ∧
    batch_strides_sycl IndexType.int32 [2, 2 ^ 32] = [2 ^ 32, 1] ∧
    batch_strides IndexType.int32 [2, 2 ^ 32]
      ≠ batch_strides_sycl IndexType.int32 [2, 2 ^ 32] := by
  decide

/-- C17, as the code has it: when the number of outer rows (the product of
`output_shape_prefix`) is representable in `Index`, the flat-offset map is
injective on rows that pass the bounds check: the offsets computed by the
sequential functor for two such rows are equal exactly when the rows agree on
every coordinate; the same holds for the element offsets computed by
`ScatterNdKernel` when `slice_size` is not zero and the number of output
elements is representable in `Index`. -/
theorem flat_offset_injective (Index : IndexType) ( output_shape_prefix : List Int)
    (r1 r2 : List Int) (hfit : Index.fits output_shape_prefix.prod)
    (h1 : RowInBounds output_shape_prefix r1) (h2 : RowInBounds output_shape_prefix r2) :
    ((cpu_dim_loop Index output_shape_prefix (batch_strides Index output_shape_prefix)
          r1).1
        = (cpu_dim_loop Index output_shape_prefix
            (batch_strides Index output_shape_prefix) r2).1 ↔
      ∀ dim, dim < output_shape_prefix.length → r1.getD dim 0 = r2.getD dim 0) ∧
    (∀ (indices : List Int) (slice_size : Int) (index1 index2 : Nat),
      KernelRowInBounds indices output_shape_prefix index1 →
      KernelRowInBounds indices output_shape_prefix index2 →
      slice_size ≠ 0 →
      Index.fits ( output_shape_prefix.prod * slice_size) →
      ((kernel_dim_loop Index indices output_shape_prefix
          (batch_strides_sycl Index output_shape_prefix) slice_size index1).1
        = (kernel_dim_loop Index indices output_shape_prefix
            (batch_strides_sycl Index output_shape_prefix) slice_size index2).1 ↔
      ∀ dim, dim < output_shape_prefix.length →
        indices.getD ( output_shape_prefix.length * index1 + dim) 0
          = indices.getD ( output_shape_prefix.length * index2 + dim) 0)) := by
  constructor
  · rw [cpu_dim_loop_fst, cpu_dim_loop_fst, narrow_flat_offset Index _ _ hfit h1,
      narrow_flat_offset Index _ _ hfit h2]
    exact flat_offset_inj output_shape_prefix r1 r2 h1 h2
  · intro indices slice_size index1 index2 hk1 hk2 hss hfit2
    rw [kernel_dim_loop_fst, kernel_dim_loop_fst]
    have hr1 := (kernel_row_in_bounds indices output_shape_prefix index1).mp hk1
    have hr2 := (kernel_row_in_bounds indices output_shape_prefix index2).mp hk2
    have hnarrow : ∀ row, RowInBounds output_shape_prefix row →
        Index.narrow (flat_offset output_shape_prefix row * slice_size)
          = flat_offset output_shape_prefix row * slice_size := by
      intro row hrow
      obtain ⟨h0, hlt⟩ := flat_offset_bounds output_shape_prefix row hrow
      apply fits_between Index _ _ hfit2
      rcases lt_or_gt_of_ne hss with hneg | hpos
      · right
        exact ⟨mul_le_mul_of_nonpos_right (le_of_lt hlt) (le_of_lt hneg),
          mul_nonpos_of_nonneg_of_nonpos h0 (le_of_lt hneg)⟩
      · left
        exact ⟨mul_nonneg h0 (le_of_lt hpos),
          mul_le_mul_of_nonneg_right (le_of_lt hlt) (le_of_lt hpos)⟩
    rw [hnarrow _ hr1, hnarrow _ hr2, mul_left_inj' hss,
      flat_offset_inj output_shape_prefix _ _ hr1 hr2]
    constructor
    · intro h dim hdim
      have := h dim hdim
      rw [kernel_row_getD _ _ _ _ hdim, kernel_row_getD _ _ _ _ hdim] at this
      exact this
    · intro h dim hdim
      rw [kernel_row_getD _ _ _ _ hdim, kernel_row_getD _ _ _ _ hdim]
      exact h dim hdim

/-- Witness of C17: `Index = int32`, shape prefix `[2, 3]`, coordinates `(1, 2)`
and `(0, 1)`; for the kernel, rows 0 and 1 of the flat index buffer
`[1, 2, 0, 1]` with slices of two elements. -/
theorem flat_offset_injective_witness :
    ((cpu_dim_loop IndexType.int32 [2, 3] (batch_strides IndexType.int32 [2, 3])
          [1, 2]).1
        = (cpu_dim_loop IndexType.int32 [2, 3] (batch_strides IndexType.int32 [2, 3])
            [0, 1]).1 ↔
      ∀ dim, dim < [(2 : Int), 3].length →
        [(1 : Int), 2].getD dim 0 = [(0 : Int), 1].getD dim 0) ∧
    ((kernel_dim_loop IndexType.int32 [1, 2, 0, 1] [2, 3]
          (batch_strides_sycl IndexType.int32 [2, 3]) 2 0).1
        = (kernel_dim_loop IndexType.int32 [1, 2, 0, 1] [2, 3]
            (batch_strides_sycl IndexType.int32 [2, 3]) 2 1).1 ↔
      ∀ dim, dim < [(2 : Int), 3].length →
        [(1 : Int), 2, 0, 1].getD ([(2 : Int), 3].length * 0 + dim) 0
          = [(1 : Int), 2, 0, 1].getD ([(2 : Int), 3].length * 1 + dim) 0) :=
  ⟨(flat_offset_injective IndexType.int32 [2, 3] [1, 2] [0, 1] (by decide) (by decide)
      (by decide)).1,
    (flat_offset_injective IndexType.int32 [2, 3] [1, 2] [0, 1] (by decide) (by decide)
      (by decide)).2 [1, 2, 0, 1] 2 0 1 (by decide) (by decide) (by decide) (by decide)⟩

/-- C17 fails as stated: at `Index = int32` and shape prefix `[2, 2 ^ 32]` the
rows `(0, 0)` and `(1, 0)` both pass the bounds check and differ in their first
coordinate, and the sequential functor computes the offset `0` for both. -/
theorem flat_offset_injective_fails :
    RowInBounds [2, 2 ^ 32] [0, 0] ∧ RowInBounds [2, 2 ^ 32] [1, 0] ∧
    [(0 : Int), 0].getD 0 0 ≠ [(1 : Int), 0].getD 0 0 ∧
    (cpu_dim_loop IndexType.int32 [2, 2 ^ 32] (batch_strides IndexType.int32 [2, 2 ^ 32])
      [0, 0]).1 = 0 ∧
    (cpu_dim_loop IndexType.int32 [2, 2 ^ 32] (batch_strides IndexType.int32 [2, 2 ^ 32])
      [1, 0]).1 = 0 := by
  decide

/-! ## Frame, inverse and last-writer properties of the sequential backend -/

theorem apply_rows_frame (Index : IndexType) (OP : UpdateOp)
    ( output_shape_prefix : List Int)
    (Tindices Tupdates : Tensor2) (out : Tensor2) (p o : Nat)
    (hfit : Index.fits output_shape_prefix.prod)
    (hin : ∀ q, q < p → RowInBounds output_shape_prefix (Tindices.chip0 q))
    (hne : ∀ q, q < p → flat_offset output_shape_prefix (Tindices.chip0 q) ≠ (o : Int)) :
    (apply_rows Index OP output_shape_prefix Tindices Tupdates p out).chip0 o
      = out.chip0 o := by
  induction p with
  | zero => rfl
  | succ p ih =>
    rw [apply_rows_succ, apply_row_eq Index OP _ _ _ _ _ hfit (hin p (by omega)),
      chip0_set]
    have hoff := (flat_offset_bounds output_shape_prefix (Tindices.chip0 p)
      (hin p (by omega))).1
    have hp := hne p (by omega)
    rw [if_neg (fun hh => hp (by omega))]
    exact ih (fun q hq => hin q (by omega)) (fun q hq => hne q (by omega))

theorem apply_rows_assign_last (Index : IndexType) ( output_shape_prefix : List Int)
    (Tindices Tupdates : Tensor2) (out : Tensor2) (p o loc : Nat)
    (hfit : Index.fits output_shape_prefix.prod)
    (hin : ∀ q, q < p → RowInBounds output_shape_prefix (Tindices.chip0 q))
    (ho : o < out.dimension0) (hloc : loc < p)
    (hoff : flat_offset output_shape_prefix (Tindices.chip0 loc) = (o : Int))
    (hmax : ∀ q, q < p →
      flat_offset output_shape_prefix (Tindices.chip0 q) = (o : Int) → q ≤ loc) :
    (apply_rows Index UpdateOp.ASSIGN output_shape_prefix Tindices Tupdates p out).chip0 o
      = Tupdates.chip0 loc := by
  induction p with
  | zero => omega
  | succ p ih =>
    rw [apply_rows_succ, apply_row_eq Index _ _ _ _ _ _ hfit (hin p (by omega)),
      chip0_set]
    have hlen := apply_rows_length Index UpdateOp.ASSIGN output_shape_prefix Tindices
      Tupdates p out
    have ho2 : o < out.length := ho
    by_cases hc : flat_offset output_shape_prefix (Tindices.chip0 p) = (o : Int)
    · have hlp : loc = p := by
        have := hmax p (by omega) hc
        omega
      rw [if_pos ⟨by omega, by rw [hlen]; omega⟩, hlp]
      rfl
    · have hb := (flat_offset_bounds output_shape_prefix (Tindices.chip0 p)
        (hin p (by omega))).1
      rw [if_neg (fun hh => hc (by omega))]
      have hlp : loc < p := by
        rcases Nat.lt_succ_iff_lt_or_eq.mp hloc with h | h
        · exact h
        · exact absurd (h ▸ hoff) hc
      exact ih (fun q hq => hin q (by omega)) hlp
        (fun q hq hq2 => hmax q (by omega) hq2)

theorem exists_greatest (P : Nat → Prop) (n : Nat) (h : ∃ q, q < n ∧ P q) :
    ∃ loc, loc < n ∧ P loc ∧ ∀ q, q < n → P q → q ≤ loc := by
  classical
  obtain ⟨q0, hq0, hP0⟩ := h
  have hspec := Nat.findGreatest_spec (P := fun q => q < n ∧ P q) (Nat.le_of_lt hq0)
    ⟨hq0, hP0⟩
  refine ⟨Nat.findGreatest (fun q => q < n ∧ P q) n, hspec.1, hspec.2, ?_⟩
  intro q hq hPq
  exact Nat.le_findGreatest (Nat.le_of_lt hq) ⟨hq, hPq⟩

theorem tensor_ext_chip0 (a b : Tensor2) (hlen : a.length = b.length)
    (h : ∀ o, o < a.length → a.chip0 o = b.chip0 o) : a = b := by
  apply List.ext_getElem hlen
  intro o h1 h2
  have := h o h1
  unfold Tensor2.chip0 at this
  rw [List.getD_eq_getElem _ _ h1, List.getD_eq_getElem _ _ h2] at this
  exact this

theorem tensor_ext_at (a b : Tensor2) (ss : Nat) (hlen : a.length = b.length)
    (ha : RowsHaveLength a ss) (hb : RowsHaveLength b ss)
    (h : ∀ o s, o < a.length → s < ss → a.at o s = b.at o s) : a = b := by
  apply tensor_ext_chip0 a b hlen
  intro o ho
  have hla := ha o ho
  have hlb := hb o (by rw [Tensor2.dimension0, ← hlen]; exact ho)
  apply List.ext_getElem (by rw [hla, hlb])
  intro s h1 h2
  have := h o s ho (by rw [← hla]; exact h1)
  unfold Tensor2.at at this
  rw [List.getD_eq_getElem _ _ h1, List.getD_eq_getElem _ _ h2] at this
  exact this

theorem foldl_add_eq (f : Nat → Int) (l : List Nat) (a : Int) :
    l.foldl (fun acc loc => combine UpdateOp.ADD acc (f loc)) a = a + (l.map f).sum := by
  induction l generalizing a with
  | nil => simp
  | cons x l ih =>
    rw [List.foldl_cons, ih, List.map_cons, List.sum_cons]
    simp only [combine]
    ring

theorem foldl_sub_eq (f : Nat → Int) (l : List Nat) (a : Int) :
    l.foldl (fun acc loc => combine UpdateOp.SUB acc (f loc)) a = a - (l.map f).sum := by
  induction l generalizing a with
  | nil => simp
  | cons x l ih =>
    rw [List.foldl_cons, ih, List.map_cons, List.sum_cons]
    simp only [combine]
    ring

theorem apply_rows_add_sub (Index : IndexType) (OP1 OP2 : UpdateOp)
    (hops : (OP1 = UpdateOp.ADD ∧ OP2 = UpdateOp.SUB) ∨
      (OP1 = UpdateOp.SUB ∧ OP2 = UpdateOp.ADD))
    ( output_shape_prefix : List Int) (Tindices Tupdates Toutput : Tensor2)
    (ss : Nat) (hfit : Index.fits output_shape_prefix.prod)
    (hin : AllInBounds output_shape_prefix Tindices)
    (hupd : ∀ loc, loc < Tindices.dimension0 → (Tupdates.chip0 loc).length = ss)
    (hout : RowsHaveLength Toutput ss) :
    apply_rows Index OP2 output_shape_prefix Tindices Tupdates Tindices.dimension0
        (apply_rows Index OP1 output_shape_prefix Tindices Tupdates Tindices.dimension0
          Toutput)
      = Toutput := by
  have hlen1 := apply_rows_length Index OP1 output_shape_prefix Tindices Tupdates
    Tindices.dimension0 Toutput
  have hrows1 := apply_rows_rows Index OP1 output_shape_prefix Tindices Tupdates Toutput
    ss Tindices.dimension0 hout hupd
  have hlen2 := apply_rows_length Index OP2 output_shape_prefix Tindices Tupdates
    Tindices.dimension0
    (apply_rows Index OP1 output_shape_prefix Tindices Tupdates Tindices.dimension0
      Toutput)
  have hrows2 := apply_rows_rows Index OP2 output_shape_prefix Tindices Tupdates _ ss
    Tindices.dimension0 hrows1 hupd
  apply tensor_ext_at _ _ ss (by rw [hlen2, hlen1]) hrows2 hout
  intro o s ho hs
  have ho1 : o < Toutput.length := by rw [hlen2, hlen1] at ho; exact ho
  rw [apply_rows_at Index OP2 output_shape_prefix Tindices Tupdates _ ss
      Tindices.dimension0 o s hfit hin hrows1 hupd
      (by rw [Tensor2.dimension0, hlen1]; exact ho1) hs,
    apply_rows_at Index OP1 output_shape_prefix Tindices Tupdates Toutput ss
      Tindices.dimension0 o s hfit hin hout hupd ho1 hs]
  rcases hops with ⟨h1, h2⟩ | ⟨h1, h2⟩
  · rw [h1, h2, foldl_add_eq, foldl_sub_eq]
    ring
  · rw [h1, h2, foldl_sub_eq, foldl_add_eq]
    ring

/-- The state-passing loop leaves the index and update buffers as they were,
and its return value and output buffer are those of `cpu_loc_loop`. -/
theorem cpu_loc_loop_run_eq (Index : IndexType) (OP : UpdateOp)
    ( output_shape_prefix : List Int) (strides : List Int) (n loc : Nat)
    (b : ScatterNdBuffers) :
    cpu_loc_loop_run Index OP output_shape_prefix strides n loc b
      = ((cpu_loc_loop Index OP output_shape_prefix strides b.Tindices b.Tupdates n loc
            b.Toutput).1,
          ⟨b.Tindices, b.Tupdates,
            (cpu_loc_loop Index OP output_shape_prefix strides b.Tindices b.Tupdates n
              loc b.Toutput).2⟩) := by
  induction n generalizing loc b with
  | zero => rfl
  | succ n ih =>
    unfold cpu_loc_loop_run cpu_loc_loop
    simp only []
    split
    · rfl
    · rw [ih]

theorem ScatterNdFunctorCPU_dimension0 (Index : IndexType) (OP : UpdateOp)
    (slice_size : Int) ( output_shape_prefix : List Int)
    (Tindices Tupdates Toutput : Tensor2) :
    (ScatterNdFunctorCPU Index OP slice_size output_shape_prefix Tindices Tupdates
      Toutput).2.dimension0 = Toutput.dimension0 := by
  by_cases hall : AllInBounds output_shape_prefix Tindices
  · rw [ScatterNdFunctorCPU_all _ _ _ _ _ _ _ hall]
    exact apply_rows_length _ _ _ _ _ _ _
  · unfold AllInBounds at hall
    push_neg at hall
    obtain ⟨loc, hloc, hoob⟩ := hall
    obtain ⟨p, _, hp⟩ := exists_first_out_of_bounds output_shape_prefix Tindices loc
      hloc hoob
    rw [ScatterNdFunctorCPU_first _ _ _ _ _ _ _ p hp]
    exact apply_rows_length _ _ _ _ _ _ _

/-- C18, as the code has it: frame property of the sequential functor, for
every input and combine operator. When the number of outer rows (the product
of `output_shape_prefix`) is representable in `Index`, an output row whose
outer offset is not the flat offset of a row before the first out-of-bounds
row (of any row, when none is out of bounds) is equal to its initial value
after the call. For every `Index` the number of output rows is unchanged, and
the call, as a step on the three buffers, leaves the index and update buffers
as they were and the output buffer as the functor computes it. -/
theorem ScatterNdFunctorCPU_frame (Index : IndexType) (OP : UpdateOp) (slice_size : Int)
    ( output_shape_prefix : List Int) (Tindices Tupdates Toutput : Tensor2) :
    (Index.fits output_shape_prefix.prod →
      (AllInBounds output_shape_prefix Tindices →
        ∀ o : Nat,
          (∀ loc, loc < Tindices.dimension0 →
            flat_offset output_shape_prefix (Tindices.chip0 loc) ≠ (o : Int)) →
          (ScatterNdFunctorCPU Index OP slice_size output_shape_prefix Tindices
            Tupdates Toutput).2.chip0 o = Toutput.chip0 o) ∧
      (∀ p, FirstOutOfBounds output_shape_prefix Tindices p →
        ∀ o : Nat,
          (∀ q, q < p →
            flat_offset output_shape_prefix (Tindices.chip0 q) ≠ (o : Int)) →
          (ScatterNdFunctorCPU Index OP slice_size output_shape_prefix Tindices
            Tupdates Toutput).2.chip0 o = Toutput.chip0 o)) ∧
    (ScatterNdFunctorCPU Index OP slice_size output_shape_prefix Tindices Tupdates
      Toutput).2.dimension0 = Toutput.dimension0 ∧
    (ScatterNdFunctorCPU.run Index OP slice_size output_shape_prefix
      ⟨Tindices, Tupdates, Toutput⟩).2.Tindices = Tindices ∧
    (ScatterNdFunctorCPU.run Index OP slice_size output_shape_prefix
      ⟨Tindices, Tupdates, Toutput⟩).2.Tupdates = Tupdates ∧
    (ScatterNdFunctorCPU.run Index OP slice_size output_shape_prefix
        ⟨Tindices, Tupdates, Toutput⟩).1
      = (ScatterNdFunctorCPU Index OP slice_size output_shape_prefix Tindices Tupdates
          Toutput).1 ∧
    (ScatterNdFunctorCPU.run Index OP slice_size output_shape_prefix
        ⟨Tindices, Tupdates, Toutput⟩).2.Toutput
      = (ScatterNdFunctorCPU Index OP slice_size output_shape_prefix Tindices Tupdates
          Toutput).2 := by
  have hrun : ScatterNdFunctorCPU.run Index OP slice_size output_shape_prefix
        ⟨Tindices, Tupdates, Toutput⟩
      = ((ScatterNdFunctorCPU Index OP slice_size output_shape_prefix Tindices Tupdates
            Toutput).1,
          ⟨Tindices, Tupdates,
            (ScatterNdFunctorCPU Index OP slice_size output_shape_prefix Tindices
              Tupdates Toutput).2⟩) := by
    unfold ScatterNdFunctorCPU.run ScatterNdFunctorCPU
    exact cpu_loc_loop_run_eq Index OP output_shape_prefix _ _ 0
      ⟨Tindices, Tupdates, Toutput⟩
  refine ⟨fun hfit => ⟨?_, ?_⟩, ScatterNdFunctorCPU_dimension0 _ _ _ _ _ _ _, ?_, ?_,
    ?_, ?_⟩
  · intro hall o hne
    rw [ScatterNdFunctorCPU_all _ _ _ _ _ _ _ hall]
    exact apply_rows_frame Index OP output_shape_prefix Tindices Tupdates Toutput _ o
      hfit hall hne
  · intro p hp o hne
    rw [ScatterNdFunctorCPU_first _ _ _ _ _ _ _ p hp]
    exact apply_rows_frame Index OP output_shape_prefix Tindices Tupdates Toutput p o
      hfit hp.2.2 hne
  · rw [hrun]
  · rw [hrun]
  · rw [hrun]
  · rw [hrun]

/-- Witness of C18: `Index = int32`, shape prefix `[3]`; rows 0 and 1 address
output rows 1 and 0, row 2 is out of bounds; output row 2 is not addressed. -/
theorem ScatterNdFunctorCPU_frame_witness :
    IndexType.int32.fits [(3 : Int)].prod ∧
    FirstOutOfBounds [3] [[1], [0], [7]] 2 ∧
    (∀ q, q < 2 → flat_offset [3] (Tensor2.chip0 [[1], [0], [7]] q) ≠ ((2 : Nat) : Int)) ∧
    (ScatterNdFunctorCPU IndexType.int32 UpdateOp.ADD 1 [3] [[1], [0], [7]]
      [[5], [6], [8]] [[10], [20], [30]]).2.chip0 2
      = Tensor2.chip0 [[10], [20], [30]] 2 :=
  ⟨by decide, by decide, by decide,
    ((ScatterNdFunctorCPU_frame IndexType.int32 UpdateOp.ADD 1 [3] [[1], [0], [7]]
      [[5], [6], [8]] [[10], [20], [30]]).1 (by decide)).2 2 (by decide) 2 (by decide)⟩

/-- C18 fails as stated: at `Index = int32`, shape prefix `[2, 2 ^ 32]`, the
only row `(1, 0)` is in bounds and flattens to `2 ^ 32`, so output row `0` is
the flat offset of no row; on the zero output of `2 ^ 33` rows the functor with
ASSIGN changes output row `0` from `[0]` to the update row `[5]`. -/
theorem ScatterNdFunctorCPU_frame_fails :
    AllInBounds [2, 2 ^ 32] [[1, 0]] ∧
    (∀ loc, loc < Tensor2.dimension0 [[(1 : Int), 0]] →
      flat_offset [2, 2 ^ 32] (Tensor2.chip0 [[1, 0]] loc) ≠ ((0 : Nat) : Int)) ∧
    (zeros (2 ^ 33) 1).chip0 0 = [0] ∧
    (ScatterNdFunctorCPU IndexType.int32 UpdateOp.ASSIGN 1 [2, 2 ^ 32] [[1, 0]] [[5]]
      (zeros (2 ^ 33) 1)).2.chip0 0 = [5] := by
  refine ⟨by decide, by decide, ?_, ?_⟩
  · rw [chip0_zeros _ _ _ (by norm_num)]
    rfl
  · rw [ScatterNdFunctorCPU_int32_wrapped _ _ _ (by norm_num), chip0_set,
      if_pos ⟨rfl, by rw [zeros_length]; norm_num⟩]
    rfl

/-- C19: on an all-in-bounds batch (duplicate coordinates allowed) ADD and SUB
are inverse on the sequential functor, in unbounded integer arithmetic:
running it with ADD and then with SUB on the same indices and updates restores
the initial output, and likewise SUB followed by ADD; every run returns
`-1`. -/
theorem ScatterNdFunctorCPU_add_sub_inverse (slice_size : Nat)
    ( output_shape_prefix : List Int) (Tindices Tupdates Toutput : Tensor2)
    (hin : AllInBounds output_shape_prefix Tindices)
    (hbatch : Tupdates.dimension0 = Tindices.dimension0)
    (hupd : RowsHaveLength Tupdates slice_size)
    (hout : RowsHaveLength Toutput slice_size) :
    ScatterNdFunctorCPU IndexType.unbounded UpdateOp.SUB slice_size output_shape_prefix
        Tindices Tupdates
        (ScatterNdFunctorCPU IndexType.unbounded UpdateOp.ADD slice_size
          output_shape_prefix Tindices Tupdates Toutput).2
      = (-1, Toutput) ∧
    ScatterNdFunctorCPU IndexType.unbounded UpdateOp.ADD slice_size output_shape_prefix
        Tindices Tupdates
        (ScatterNdFunctorCPU IndexType.unbounded UpdateOp.SUB slice_size
          output_shape_prefix Tindices Tupdates Toutput).2
      = (-1, Toutput) := by
  have hupd2 : ∀ loc, loc < Tindices.dimension0 →
      (Tupdates.chip0 loc).length = slice_size :=
    fun loc hloc => hupd loc (by rw [hbatch]; exact hloc)
  have hfit : IndexType.unbounded.fits output_shape_prefix.prod := rfl
  constructor
  · rw [ScatterNdFunctorCPU_all _ _ _ _ _ _ _ hin, ScatterNdFunctorCPU_all _ _ _ _ _ _ _ hin,
      apply_rows_add_sub IndexType.unbounded UpdateOp.ADD UpdateOp.SUB
        (Or.inl ⟨rfl, rfl⟩) output_shape_prefix Tindices Tupdates Toutput slice_size
        hfit hin hupd2 hout]
  · rw [ScatterNdFunctorCPU_all _ _ _ _ _ _ _ hin, ScatterNdFunctorCPU_all _ _ _ _ _ _ _ hin,
      apply_rows_add_sub IndexType.unbounded UpdateOp.SUB UpdateOp.ADD
        (Or.inr ⟨rfl, rfl⟩) output_shape_prefix Tindices Tupdates Toutput slice_size
        hfit hin hupd2 hout]

/-- Witness of C19: two rows with the same coordinate, on a non-zero output. -/
theorem ScatterNdFunctorCPU_add_sub_inverse_witness :
    ScatterNdFunctorCPU IndexType.unbounded UpdateOp.SUB (1 : Nat) [2] [[1], [1]]
        [[5], [7]]
        (ScatterNdFunctorCPU IndexType.unbounded UpdateOp.ADD (1 : Nat) [2] [[1], [1]]
          [[5], [7]] [[10], [20]]).2
      = (-1, [[10], [20]]) ∧
    ScatterNdFunctorCPU IndexType.unbounded UpdateOp.ADD (1 : Nat) [2] [[1], [1]]
        [[5], [7]]
        (ScatterNdFunctorCPU IndexType.unbounded UpdateOp.SUB (1 : Nat) [2] [[1], [1]]
          [[5], [7]] [[10], [20]]).2
      = (-1, [[10], [20]]) :=
  ScatterNdFunctorCPU_add_sub_inverse 1 [2] [[1], [1]] [[5], [7]] [[10], [20]]
    (by decide) (by decide) (by decide) (by decide)

/-- C20, as the code has it: last writer wins for ASSIGN on the sequential
functor when the number of outer rows (the product of `output_shape_prefix`)
is representable in `Index`: on an all-in-bounds batch every addressed output
row ends equal to the update row of the highest-numbered row whose coordinate
addresses it, whatever its initial contents; and running the same ASSIGN
scatter again on the result leaves it unchanged. -/
theorem ScatterNdFunctorCPU_assign_last_writer (Index : IndexType) (slice_size : Int)
    ( output_shape_prefix : List Int) (Tindices Tupdates Toutput : Tensor2)
    (hfit : Index.fits output_shape_prefix.prod)
    (hin : AllInBounds output_shape_prefix Tindices) :
    (∀ o loc : Nat, o < Toutput.dimension0 → loc < Tindices.dimension0 →
      flat_offset output_shape_prefix (Tindices.chip0 loc) = (o : Int) →
      (∀ q, q < Tindices.dimension0 →
        flat_offset output_shape_prefix (Tindices.chip0 q) = (o : Int) → q ≤ loc) →
      (ScatterNdFunctorCPU Index UpdateOp.ASSIGN slice_size output_shape_prefix Tindices
        Tupdates Toutput).2.chip0 o = Tupdates.chip0 loc) ∧
    ScatterNdFunctorCPU Index UpdateOp.ASSIGN slice_size output_shape_prefix Tindices
        Tupdates
        (ScatterNdFunctorCPU Index UpdateOp.ASSIGN slice_size output_shape_prefix
          Tindices Tupdates Toutput).2
      = (-1, (ScatterNdFunctorCPU Index UpdateOp.ASSIGN slice_size output_shape_prefix
          Tindices Tupdates Toutput).2) := by
  constructor
  · intro o loc ho hloc hoff hmax
    rw [ScatterNdFunctorCPU_all _ _ _ _ _ _ _ hin]
    exact apply_rows_assign_last Index output_shape_prefix Tindices Tupdates Toutput _ o
      loc hfit hin ho hloc hoff hmax
  · rw [ScatterNdFunctorCPU_all _ _ _ _ _ _ _ hin, ScatterNdFunctorCPU_all _ _ _ _ _ _ _ hin]
    congr 1
    have hlen1 := apply_rows_length Index UpdateOp.ASSIGN output_shape_prefix Tindices
      Tupdates Tindices.dimension0 Toutput
    have hlen2 := apply_rows_length Index UpdateOp.ASSIGN output_shape_prefix Tindices
      Tupdates Tindices.dimension0
      (apply_rows Index UpdateOp.ASSIGN output_shape_prefix Tindices Tupdates
        Tindices.dimension0 Toutput)
    apply tensor_ext_chip0 _ _ hlen2
    intro o ho
    rw [hlen2] at ho
    by_cases hex : ∃ q, q < Tindices.dimension0 ∧
        flat_offset output_shape_prefix (Tindices.chip0 q) = (o : Int)
    · obtain ⟨loc, hloc, hoff, hmax⟩ := exists_greatest _ _ hex
      rw [apply_rows_assign_last Index output_shape_prefix Tindices Tupdates _ _ o loc
          hfit hin ho hloc hoff hmax,
        apply_rows_assign_last Index output_shape_prefix Tindices Tupdates Toutput _ o
          loc hfit hin (by rw [hlen1] at ho; exact ho) hloc hoff hmax]
    · push_neg at hex
      exact apply_rows_frame Index UpdateOp.ASSIGN output_shape_prefix Tindices Tupdates
        _ _ o hfit hin hex

/-- Witness of C20: `Index = int32`; rows 0 and 2 address output row 1; row 2
wins. -/
theorem ScatterNdFunctorCPU_assign_last_writer_witness :
    (ScatterNdFunctorCPU IndexType.int32 UpdateOp.ASSIGN 1 [2] [[1], [0], [1]]
        [[5], [6], [7]] [[10], [20]]).2.chip0 1 = Tensor2.chip0 [[5], [6], [7]] 2 ∧
    ScatterNdFunctorCPU IndexType.int32 UpdateOp.ASSIGN 1 [2] [[1], [0], [1]]
        [[5], [6], [7]]
        (ScatterNdFunctorCPU IndexType.int32 UpdateOp.ASSIGN 1 [2] [[1], [0], [1]]
          [[5], [6], [7]] [[10], [20]]).2
      = (-1, (ScatterNdFunctorCPU IndexType.int32 UpdateOp.ASSIGN 1 [2] [[1], [0], [1]]
          [[5], [6], [7]] [[10], [20]]).2) :=
  ⟨(ScatterNdFunctorCPU_assign_last_writer IndexType.int32 1 [2] [[1], [0], [1]]
      [[5], [6], [7]] [[10], [20]] (by decide) (by decide)).1 1 2 (by decide)
      (by decide) (by decide) (by decide),
    (ScatterNdFunctorCPU_assign_last_writer IndexType.int32 1 [2] [[1], [0], [1]]
      [[5], [6], [7]] [[10], [20]] (by decide) (by decide)).2⟩

/-- C20 fails as stated: at `Index = int32`, shape prefix `[2, 2 ^ 32]`, on the
zero output of `2 ^ 33` rows, the only row `(1, 0)` is in bounds and is the
highest-numbered row that addresses output row `2 ^ 32`; the functor with
ASSIGN leaves that output row at `[0]`, not at the update row `[5]`. -/
theorem ScatterNdFunctorCPU_assign_last_writer_fails :
    AllInBounds [2, 2 ^ 32] [[1, 0]] ∧
    2 ^ 32 < (zeros (2 ^ 33) 1).dimension0 ∧
    flat_offset [2, 2 ^ 32] (Tensor2.chip0 [[1, 0]] 0) = ((2 ^ 32 : Nat) : Int) ∧
    Tensor2.chip0 [[5]] 0 = [5] ∧
    (ScatterNdFunctorCPU IndexType.int32 UpdateOp.ASSIGN 1 [2, 2 ^ 32] [[1, 0]] [[5]]
      (zeros (2 ^ 33) 1)).2.chip0 (2 ^ 32) = [0] := by
  refine ⟨by decide, ?_, by decide, rfl, ?_⟩
  · unfold Tensor2.dimension0
    rw [zeros_length]
    norm_num
  · rw [ScatterNdFunctorCPU_int32_wrapped _ _ _ (by norm_num), chip0_set,
      if_neg (by norm_num), chip0_zeros _ _ _ (by norm_num)]
    rfl

/-! ## Claims about `SYCLmemcpy` -/

/-- C12, as the code has it: for a source element type among the case labels of
the switch, `SYCLmemcpy` selects a copy word type whose byte size is the element
byte size of the source (one of 1, 2, 4, 8, 16) and issues exactly one device
memcpy, from the source base to the destination base, of `TotalBytes()` bytes of
the source tensor. -/
theorem SYCLmemcpy_word_size (src_tensor dst_tensor : Tensor)
    (h : src_tensor.dtype ∈ SYCLmemcpy_case_labels) :
    ∃ w : CopyWord,
      SYCLmemcpy src_tensor dst_tensor
        = SYCLmemcpyResult.copied
            [⟨GetBase dst_tensor, GetBase src_tensor, w, src_tensor.TotalBytes⟩] ∧
      w.sizeof = DataTypeSize src_tensor.dtype ∧
      DataTypeSize src_tensor.dtype ∈ [1, 2, 4, 8, 16] := by
  obtain ⟨dt, b, t⟩ := src_tensor
  cases dt <;> simp [SYCLmemcpy_case_labels] at h <;>
    simp [SYCLmemcpy, GetBase, DataTypeSize, CopyWord.sizeof]

/-- Witness of C12: a `DT_COMPLEX64` tensor of 24 bytes. -/
theorem SYCLmemcpy_word_size_witness :
    ∃ w : CopyWord,
      SYCLmemcpy ⟨DataType.DT_COMPLEX64, 4096, 24⟩ ⟨DataType.DT_COMPLEX64, 8192, 24⟩
        = SYCLmemcpyResult.copied
            [⟨GetBase ⟨DataType.DT_COMPLEX64, 8192, 24⟩,
              GetBase ⟨DataType.DT_COMPLEX64, 4096, 24⟩, w,
              (Tensor.mk DataType.DT_COMPLEX64 4096 24).TotalBytes⟩] ∧
      w.sizeof = DataTypeSize (Tensor.mk DataType.DT_COMPLEX64 4096 24).dtype ∧
      DataTypeSize (Tensor.mk DataType.DT_COMPLEX64 4096 24).dtype ∈ [1, 2, 4, 8, 16] :=
  SYCLmemcpy_word_size ⟨DataType.DT_COMPLEX64, 4096, 24⟩ ⟨DataType.DT_COMPLEX64, 8192, 24⟩
    (by decide)

/-- C12 fails as stated: `DT_UINT32` has element byte size 4 and `DT_UINT64`
has element byte size 8, neither is a case label of the switch, and on tensors
of these types `SYCLmemcpy` reaches `LOG(FATAL)` without issuing a copy. -/
theorem SYCLmemcpy_word_size_fails :
    DataTypeSize DataType.DT_UINT32 = 4 ∧
    SYCLmemcpy ⟨DataType.DT_UINT32, 4096, 24⟩ ⟨DataType.DT_UINT32, 8192, 24⟩
      = SYCLmemcpyResult.fatal DataType.DT_UINT32 ∧
    DataTypeSize DataType.DT_UINT64 = 8 ∧
    SYCLmemcpy ⟨DataType.DT_UINT64, 4096, 24⟩ ⟨DataType.DT_UINT64, 8192, 24⟩
      = SYCLmemcpyResult.fatal DataType.DT_UINT64 := by
  decide

/-- C13: `SYCLmemcpy` reaches the fatal branch (and issues no copy) exactly when
the source type tag is not one of the eighteen case labels of its switch; for
every case label it issues exactly one copy and does not reach the fatal
branch. -/
theorem SYCLmemcpy_fatal_iff (src_tensor dst_tensor : Tensor) :
    SYCLmemcpy_case_labels.length = 18 ∧
    (SYCLmemcpy src_tensor dst_tensor = SYCLmemcpyResult.fatal src_tensor.dtype ↔
      src_tensor.dtype ∉ SYCLmemcpy_case_labels) ∧
    ((∃ dt, SYCLmemcpy src_tensor dst_tensor = SYCLmemcpyResult.fatal dt) ↔
      src_tensor.dtype ∉ SYCLmemcpy_case_labels) ∧
    (src_tensor.dtype ∈ SYCLmemcpy_case_labels ↔
      ∃ w : CopyWord,
        SYCLmemcpy src_tensor dst_tensor
          = SYCLmemcpyResult.copied
              [⟨GetBase dst_tensor, GetBase src_tensor, w, src_tensor.TotalBytes⟩]) := by
  obtain ⟨dt, b, t⟩ := src_tensor
  refine ⟨rfl, ?_, ?_, ?_⟩
  · cases dt <;> simp [SYCLmemcpy, SYCLmemcpy_case_labels]
  · cases dt <;> simp [SYCLmemcpy, SYCLmemcpy_case_labels]
  · cases dt <;> simp [SYCLmemcpy, SYCLmemcpy_case_labels, GetBase]

/-! ## Further claims about work partitioning -/

theorem ceil_div_mul_lt (n d : Nat) (hd : 1 ≤ d) : ceil_div n d * d < n + d := by
  unfold ceil_div
  have hqr := Nat.div_add_mod n d
  have hr := Nat.mod_lt n (show d > 0 by omega)
  have hcomm : n / d * d = d * (n / d) := Nat.mul_comm _ _
  split
  · simp only [Nat.add_zero]
    omega
  · simp only [Nat.add_mul, Nat.one_mul]
    omega

theorem multiple_ge_of_lt_add (G m N gs : Nat) (hG : G % gs = 0)
    (hm : m % gs = 0) (hlt : G < N + gs) (hNm : N ≤ m) : G ≤ m := by
  by_contra hcon
  have hmG : m < G := by omega
  obtain ⟨a, ha⟩ := Nat.dvd_of_mod_eq_zero hm
  obtain ⟨b, hb⟩ := Nat.dvd_of_mod_eq_zero hG
  rw [ha, hb] at hmG
  have hab : a < b := Nat.lt_of_mul_lt_mul_left hmG
  have hstep : gs * (a + 1) ≤ gs * b := Nat.mul_le_mul_left gs hab
  rw [Nat.mul_add, Nat.mul_one] at hstep
  omega

/-- C15 (the code departs from the claim): for `N = 0` the divisor
`group_size = min(N, W)` is zero whatever the reported width `W`, and both
overloads of `get_sycl_nd_range` divide by zero. -/
theorem get_sycl_nd_range_zero_items (d : SyclDevice) (item_dim1 : Nat) :
    min (0 % SIZE_T_MOD) (get_max_work_item_tuple d).1 = 0 ∧
    get_sycl_nd_range d 0 = none ∧
    get_sycl_nd_range2 d 0 item_dim1 = none := by
  refine ⟨by simp, ?_, ?_⟩
  · simp [get_sycl_nd_range]
  · simp [get_sycl_nd_range2]

/-- C16, as the code has it: for `N >= 1` and `W >= 1` with
`N + min(N, W) - 1` representable in `size_t`, the first global-range extent
`G` returned by both overloads is the least multiple of `group_size` that is at
least `N`: `G mod group_size = 0` and `N <= G < N + group_size`. -/
theorem get_sycl_nd_range_least_multiple (d : SyclDevice) (N item_dim1 : Nat)
    (hN : 1 ≤ N) (hW : 1 ≤ (get_max_work_item_tuple d).1)
    (hfit : N + min N (get_max_work_item_tuple d).1 - 1 < SIZE_T_MOD) :
    ∃ G group_size,
      group_size = min N (get_max_work_item_tuple d).1 ∧
      get_sycl_nd_range d N = some ⟨G, group_size⟩ ∧
      get_sycl_nd_range2 d N item_dim1
        = some ⟨(G, item_dim1 % SIZE_T_MOD), (group_size, 1)⟩ ∧
      G % group_size = 0 ∧ N ≤ G ∧ G < N + group_size ∧
      ∀ m, m % group_size = 0 → N ≤ m → G ≤ m := by
  obtain ⟨h1, h2, h3, h4⟩ := sycl_groups_no_wrap d N hN hW hfit
  have hgs : 1 ≤ min N (get_max_work_item_tuple d).1 := le_min hN hW
  have hmod : (ceil_div N (min N (get_max_work_item_tuple d).1)
      * min N (get_max_work_item_tuple d).1) % min N (get_max_work_item_tuple d).1 = 0 :=
    Nat.mul_mod_left _ _
  have hlt := ceil_div_mul_lt N _ hgs
  refine ⟨ceil_div N (min N (get_max_work_item_tuple d).1)
      * min N (get_max_work_item_tuple d).1,
    min N (get_max_work_item_tuple d).1, rfl, ?_, ?_, hmod,
    ceil_div_mul_ge N _ hgs, hlt, ?_⟩
  · unfold get_sycl_nd_range
    simp only [h1, h2, if_false, h3, h4]
  · unfold get_sycl_nd_range2
    simp only [h1, h2, if_false, h3, h4]
  · intro m hm hNm
    exact multiple_ge_of_lt_add _ m N _ hmod hm hlt hNm

/-- Witness of C16: ten items on a device of width four. -/
theorem get_sycl_nd_range_least_multiple_witness :
    ∃ G group_size,
      group_size = min 10 (get_max_work_item_tuple ⟨(4, 4, 4)⟩).1 ∧
      get_sycl_nd_range ⟨(4, 4, 4)⟩ 10 = some ⟨G, group_size⟩ ∧
      get_sycl_nd_range2 ⟨(4, 4, 4)⟩ 10 7
        = some ⟨(G, 7 % SIZE_T_MOD), (group_size, 1)⟩ ∧
      G % group_size = 0 ∧ 10 ≤ G ∧ G < 10 + group_size ∧
      ∀ m, m % group_size = 0 → 10 ≤ m → G ≤ m :=
  get_sycl_nd_range_least_multiple ⟨(4, 4, 4)⟩ 10 7 (by decide) (by decide) (by decide)

/-- C16 fails as stated: with `N = 2 ^ 64 - 1` and `W = 3` the sum
`N + group_size - 1` wraps to `1` in `size_t`, the group count is `0` and the
global range is `0`, which is below `N`. -/
theorem get_sycl_nd_range_least_multiple_fails :
    get_sycl_nd_range ⟨(3, 3, 3)⟩ (2 ^ 64 - 1) = some ⟨0, 3⟩ ∧
    get_sycl_nd_range2 ⟨(3, 3, 3)⟩ (2 ^ 64 - 1) 7 = some ⟨(0, 7), (3, 1)⟩ ∧
    ¬ (2 ^ 64 - 1 ≤ 0) := by
  decide

end tensorflow
